import Mathlib

/-!
TTetris: the game-state engine of `main.c`.

A shallow embedding of the core of `src/main.c`: the piece catalog and its
rotation (`pieces`, `rotate_1d_map`), the index arithmetic
(`calc_piece_index`), and the body of the `while (1)` loop of `main` from the
input handling down to the line clearing (lines 184-297).

Conventions of the embedding.

* C `int` values are `Int`; loop counters that run over `0 .. n-1` are `Nat`.
  C division and remainder truncate towards zero: `Int.tdiv`, `Int.tmod`.
* `int map[WIDTH * HEIGHT]` is a `List Int` (of length `WIDTH * HEIGHT`), the
  six-int shape descriptors (`pieces[i]`, the `static int rotated_map[6]`) are
  `List Int` of length 6.
* A read or write outside an array is undefined behaviour in C.  Wherever the
  source can index outside an array the embedding returns `none` (or
  `Step.undefined`) instead of inventing a value.
* `rand()` is an input: the value it returns is a parameter of the step.
-/

namespace TTetris

/-- Board width, `const int WIDTH = 10`. -/
def WIDTH : Nat := 10

/-- Board height, `const int HEIGHT = 10`. -/
def HEIGHT : Nat := 10

/-- The loop `for (i = 0; i < n; i++) s = body i s`. -/
def for_range {σ : Type} (n : Nat) (body : Nat → σ → σ) (init : σ) : σ :=
  match n with
  | 0 => init
  | k + 1 => body k (for_range k body init)

/-- The loop `for (i = n - 1; i >= 0; i--) s = body i s`. -/
def for_down {σ : Type} (n : Nat) (body : Nat → σ → σ) (init : σ) : σ :=
  match n with
  | 0 => init
  | k + 1 => for_down k body (body k init)

/-- The catalog `const int pieces[7][6]`: width, height and the four occupied
cells as row-major indices into the `width × height` bounding box. -/
def pieces : List (List Int) :=
  [ [4, 1, 0, 1, 2, 3],
    [3, 2, 0, 3, 4, 5],
    [3, 2, 2, 3, 4, 5],
    [2, 2, 0, 1, 2, 3],
    [3, 2, 1, 2, 3, 4],
    [3, 2, 0, 1, 2, 4],
    [3, 2, 0, 1, 4, 5] ]

/-- Absolute board index of cell `index` of the shape `data` placed at
`(x, y)`; `calc_piece_index` of `main.c`, statement by statement.  (The unused
local `height` is dropped.  A zero `width` would be a division by zero; every
descriptor the game passes in has width at least 1.) -/
def calc_piece_index (data : List Int) (index : Nat) (x y : Int) : Int :=
  let width := data.getD 0 0
  let global_index := data.getD (index + 2) 0
  let inner_y := Int.tdiv global_index width
  let global_index := global_index + inner_y * (WIDTH : Int)
  let global_index := global_index - inner_y * width
  let global_index := global_index + x
  let global_index := global_index + y * (WIDTH : Int)
  global_index

/-- The function `random_number(min, max)`, with `r` the value returned by
`rand()` (a number in `0 .. RAND_MAX`). -/
def random_number (r : Nat) (min max : Int) : Int :=
  Int.tmod (r : Int) (max - min + 1) + min

/-- One iteration of the loop of `rotate_1d_map` that marks the cells:
`map_2d[index / width][index % width] = 1`.  `none` when the write falls
outside `map_2d`. -/
def mark_cell (width height : Int) (map_2d : List Int) (index : Int) :
    Option (List Int) :=
  let x := Int.tmod index width
  let y := Int.tdiv index width
  if 0 ≤ x ∧ x < width ∧ 0 ≤ y ∧ y < height then
    some (map_2d.set (y.toNat * width.toNat + x.toNat) 1)
  else none

/-- The second pair of loops of `rotate_1d_map`:
`rotated_map_2d[x][height - y - 1] = map_2d[y][x]`, both arrays flattened
row-major (`map_2d` has rows of length `w`, `rotated_map_2d` of length `h`).
The loops assign every cell of `rotated_map_2d`, so its content before them
(indeterminate in C, zeros here) does not matter. -/
def rotate_2d (w h : Nat) (map_2d : List Int) : List Int :=
  for_range w (fun x r =>
    for_range h (fun y r =>
      r.set (x * h + (h - y - 1)) (map_2d.getD (y * w + x) 0)) r)
    (List.replicate (w * h) 0)

/-- The last pair of loops of `rotate_1d_map`: scan `rotated_map_2d` row by
row and store the index of every set cell at `rotated_map[place_index++]`.
The state is the pair `(rotated_map, place_index)`.  At most four cells of
`rotated_map_2d` are set, so `place_index` stays below 6. -/
def collect_cells (w h : Nat) (rotated_map_2d : List Int)
    (st : List Int × Nat) : List Int × Nat :=
  for_range w (fun y st =>
    for_range h (fun x st =>
      if rotated_map_2d.getD (y * h + x) 0 ≠ 0 then
        (st.1.set st.2 ((y * h + x : Nat) : Int), st.2 + 1)
      else st) st) st

/-- The function `rotate_1d_map`.  The first argument is the content of the
`static int rotated_map[6]` before the call; the result is its content after
the call, which is what the returned pointer designates.  All of `map` is
read before `rotated_map` is written, so the call is also meaningful when
`map` is `rotated_map` itself (as in the rotation loop of `main`).

`none` stands for undefined behaviour: a variable-length array of
non-positive size, or a cell index outside the bounding box. -/
def rotate_1d_map (rotated_map : List Int) (map : List Int) : Option (List Int) :=
  let width := map.getD 0 0
  let height := map.getD 1 0
  if width ≤ 0 ∨ height ≤ 0 then none
  else
    let w := width.toNat
    let h := height.toNat
    -- int map_2d[height][width], zeroed
    let map_2d : Option (List Int) := some (List.replicate (h * w) 0)
    let map_2d := for_range 4 (fun i acc =>
      acc.bind (fun m => mark_cell width height m (map.getD (i + 2) 0))) map_2d
    match map_2d with
    | none => none
    | some map_2d =>
      let rotated_map_2d := rotate_2d w h map_2d
      let rotated_map := (rotated_map.set 0 height).set 1 width
      some (collect_cells w h rotated_map_2d (rotated_map, 2)).1

/-- The rotation loop of `main`:
`for (i = 0; i < rotation; i++) piece_data = rotate_1d_map(piece_data);`.
The state is `(piece_data, rotated_map)`: after the first call `piece_data`
points to the static buffer. -/
def rotate_times (n : Nat) (piece_data rotated_map : List Int) :
    Option (List Int × List Int) :=
  for_range n (fun _ acc =>
    acc.bind (fun p =>
      (rotate_1d_map p.2 p.1).map (fun r => (r, r)))) (some (piece_data, rotated_map))

/-! ## The game state and one iteration of the loop of `main` -/

/-- The mutable variables of `main` that survive an iteration of the loop,
plus the `static` buffer of `rotate_1d_map`.  `game_over` is the C `int`
flag (0 or 1). -/
structure State where
  map : List Int
  piece_index : Int
  piece_x : Int
  piece_y : Int
  move_delay_count : Int
  rotation : Int
  score : Int
  game_over : Int
  rotated_map : List Int
  deriving DecidableEq

/-- What `read_input` delivers: whether it reported a read error (return
value 1), `bytesRead`, and the three bytes of `buffer` as they stand after
the call. -/
structure Input where
  failed : Bool
  bytesRead : Int
  b0 : Int
  b1 : Int
  b2 : Int

/-- No key pressed: `read` returns -1 with `EAGAIN`. -/
def no_key : Input := ⟨false, -1, 0, 0, 0⟩

/-- Arrow up, `ESC [ A`: rotate. -/
def key_up : Input := ⟨false, 3, 27, 91, 65⟩

/-- Arrow down, `ESC [ B`: soft drop. -/
def key_down : Input := ⟨false, 3, 27, 91, 66⟩

/-- Arrow right, `ESC [ C`. -/
def key_right : Input := ⟨false, 3, 27, 91, 67⟩

/-- Arrow left, `ESC [ D`. -/
def key_left : Input := ⟨false, 3, 27, 91, 68⟩

/-- Space: restart after a game over. -/
def key_space : Input := ⟨false, 1, 32, 0, 0⟩

/-- The ESC key alone: leave the loop. -/
def key_esc : Input := ⟨false, 1, 27, 0, 0⟩

/-- Outcome of (a part of) one loop iteration: the next value, the loop is
left by `break`, or the iteration indexes outside an array. -/
inductive Step (α : Type) where
  | next (a : α)
  | quit
  | undefined
  deriving DecidableEq

/-- The constant `int move_delay = 10`. -/
def move_delay : Int := 10

/-- The loop `for (i = 0; i < WIDTH * HEIGHT; i++) map[i] = 0;`. -/
def clear_map (map : List Int) : List Int :=
  for_range (WIDTH * HEIGHT) (fun i m => m.set i 0) map

/-- The block `Handle Input` of `main` (lines 195-241); `width` is
`piece_data[0]` as computed before it, `r` the value `rand()` returns if the
restart branch calls it.  `none` stands for `break`. -/
def handle_input (s : State) (width : Int) (inp : Input) (r : Nat) : Option State :=
  if inp.bytesRead > 0 then
    if inp.b0 = 27 then
      if inp.bytesRead = 1 then none
      else if inp.b1 = 91 then
        if inp.b2 = 65 then
          some { s with rotation := Int.tmod (s.rotation + 1) 4 }
        else if inp.b2 = 66 then
          some { s with piece_y := s.piece_y + 1 }
        else if inp.b2 = 67 then
          if s.piece_x + width < (WIDTH : Int) then
            some { s with piece_x := s.piece_x + 1 }
          else some s
        else if inp.b2 = 68 then
          if s.piece_x > 0 then
            some { s with piece_x := s.piece_x - 1 }
          else some s
        else some s
      else some s
    else if inp.b0 = 32 then
      if s.game_over ≠ 0 then
        some { s with
          game_over := 0
          map := clear_map s.map
          piece_index := random_number r 0 6
          piece_x := 0
          piece_y := -2
          score := 0 }
      else some s
    else some s
  else some s

/-- The gravity delay (lines 243-248). -/
def gravity (s : State) : State :=
  if s.move_delay_count ≥ move_delay then
    { s with piece_y := s.piece_y + 1, move_delay_count := 0 }
  else
    { s with move_delay_count := s.move_delay_count + 1 }

/-- The read `map[i]`; `none` when `i` is outside the array. -/
def read_map (map : List Int) (i : Int) : Option Int :=
  if i < 0 then none else map[i.toNat]?

/-- The write `map[i] = v`; `none` when `i` is outside the array. -/
def write_map (map : List Int) (i : Int) (v : Int) : Option (List Int) :=
  if 0 ≤ i ∧ i < (map.length : Int) then some (map.set i.toNat v) else none

/-- The block `Check collision` (lines 251-258): the value of `collision`
after the loop.  The second operand of `||` is evaluated only when the first
is false. -/
def check_collision (map : List Int) (piece_data : List Int) (piece_x piece_y : Int) :
    Option Int :=
  for_range 4 (fun i acc =>
    acc.bind (fun collision =>
      let index := calc_piece_index piece_data i piece_x piece_y
      let index_below := index + (WIDTH : Int)
      if index_below ≥ (WIDTH : Int) * (HEIGHT : Int) then some 1
      else
        match read_map map index_below with
        | none => none
        | some v => if v = 1 then some 1 else some collision)) (some 0)

/-- The loop of lines 264-267: `map[calc_piece_index(piece_data, i, x, y)] = 1`
for the four cells. -/
def merge_piece (map : List Int) (piece_data : List Int) (piece_x piece_y : Int) :
    Option (List Int) :=
  for_range 4 (fun i acc =>
    acc.bind (fun m =>
      write_map m (calc_piece_index piece_data i piece_x piece_y) 1)) (some map)

/-- The block `if (collision) { ... }` (lines 259-271); `r` is the value
`rand()` returns for the new piece. -/
def lock (s : State) (piece_data : List Int) (collision : Int) (r : Nat) : Option State :=
  if collision ≠ 0 then
    let game_over := if s.piece_y < 0 then 1 else s.game_over
    match merge_piece s.map piece_data s.piece_x s.piece_y with
    | none => none
    | some map =>
      some { s with
        game_over := game_over
        map := map
        piece_index := random_number r 0 6
        piece_x := 0
        piece_y := -2 }
  else some s

/-- The inner loop of lines 275-281: the value of `empty_tile` for row `y`. -/
def row_has_empty_tile (map : List Int) (y : Nat) : Int :=
  for_range WIDTH (fun x empty_tile =>
    if map.getD (y * WIDTH + x) 0 = 0 then 1 else empty_tile) 0

/-- The loop of lines 284-287: zero row `y`. -/
def clear_row (map : List Int) (y : Nat) : List Int :=
  for_range WIDTH (fun x m => m.set (y * WIDTH + x) 0) map

/-- The inner loop of lines 290-293: copy row `y2` onto row `y2 + 1`. -/
def copy_row_down (map : List Int) (y2 : Nat) : List Int :=
  for_range WIDTH (fun x m =>
    m.set (y2 * WIDTH + x + WIDTH) (m.getD (y2 * WIDTH + x) 0)) map

/-- The loop of lines 289-294: `for (y2 = y - 1; y2 >= 0; y2--)` copy row
`y2` onto row `y2 + 1`. -/
def shift_rows_down (map : List Int) (y : Nat) : List Int :=
  for_down y (fun y2 m => copy_row_down m y2) map

/-- The block `Handle complete lines` (lines 274-297) on `(map, score)`.
All indices are `y * WIDTH + x` with `y < HEIGHT`, `x < WIDTH`, inside a map
of `WIDTH * HEIGHT` cells. -/
def handle_complete_lines (st : List Int × Int) : List Int × Int :=
  for_range HEIGHT (fun y st =>
    if row_has_empty_tile st.1 y = 0 then
      (shift_rows_down (clear_row st.1 y) y, st.2 + 1)
    else st) st

/-- Lines 187-191: `piece_data` for the current piece and rotation, with the
content of the static buffer afterwards.  `none` when `piece_index` is not an
index of `pieces` or a rotation is undefined. -/
def current_piece_data (s : State) : Option (List Int × List Int) :=
  if s.piece_index < 0 ∨ 7 ≤ s.piece_index then none
  else rotate_times s.rotation.toNat (pieces.getD s.piece_index.toNat []) s.rotated_map

/-- The loop body from `read_input` to the end of the collision check (lines
185-258): the state after input and gravity, `piece_data`, and the value of
`collision`.  `r` is the value of `rand()` for a restart. -/
def tick_check (s : State) (inp : Input) (r : Nat) : Step (State × List Int × Int) :=
  if inp.failed then Step.quit
  else
    match current_piece_data s with
    | none => Step.undefined
    | some (piece_data, rotated_map) =>
      let width := piece_data.getD 0 0
      match handle_input { s with rotated_map := rotated_map } width inp r with
      | none => Step.quit
      | some s1 =>
        let s2 := gravity s1
        match check_collision s2.map piece_data s2.piece_x s2.piece_y with
        | none => Step.undefined
        | some collision => Step.next (s2, piece_data, collision)

/-- One iteration of the `while (1)` loop of `main`, lines 185-297 (the
rendering that follows changes no variable of the state).  `r_restart` and
`r_lock` are the values `rand()` returns in the restart branch and in the
lock branch, should they call it. -/
def tick (s : State) (inp : Input) (r_restart r_lock : Nat) : Step State :=
  match tick_check s inp r_restart with
  | Step.quit => Step.quit
  | Step.undefined => Step.undefined
  | Step.next (s2, piece_data, collision) =>
    match lock s2 piece_data collision r_lock with
    | none => Step.undefined
    | some s3 =>
      let cleared := handle_complete_lines (s3.map, s3.score)
      Step.next { s3 with map := cleared.1, score := cleared.2 }

/-! ## Vocabulary of the specification -/

/-- Where the cell with local index `k` of a `w × h` shape goes under a
quarter turn clockwise: row `r = k / w`, column `c = k % w` becomes index
`c * h + (h - 1 - r)` of the `h × w` result. -/
def rotated_cell (w h k : Int) : Int :=
  Int.tmod k w * h + (h - 1 - Int.tdiv k w)

/-- A shape descriptor `[w, h, a, b, c, d]` with `w, h ≥ 1` and four distinct
cells inside the `w × h` box. -/
def wf_shape : List Int → Prop
  | [w, h, a, b, c, d] =>
    1 ≤ w ∧ 1 ≤ h ∧ (∀ k ∈ [a, b, c, d], 0 ≤ k ∧ k < w * h) ∧ [a, b, c, d].Nodup
  | _ => False

/-- Absolute row of cell `i` of the shape `data` whose origin row is `y`. -/
def cell_row (data : List Int) (i : Nat) (y : Int) : Int :=
  Int.tdiv (data.getD (i + 2) 0) (data.getD 0 0) + y

/-- Absolute column of cell `i` of the shape `data` whose origin column is `x`. -/
def cell_col (data : List Int) (i : Nat) (x : Int) : Int :=
  Int.tmod (data.getD (i + 2) 0) (data.getD 0 0) + x

/-- A board: `WIDTH * HEIGHT` cells, each 0 (empty) or 1 (occupied). -/
def board_wf (map : List Int) : Prop :=
  map.length = WIDTH * HEIGHT ∧ ∀ v ∈ map, v = 0 ∨ v = 1

/-- The board cell in row `row`, column `col`. -/
def cell (map : List Int) (row col : Nat) : Int :=
  map.getD (row * WIDTH + col) 0

/-- The board cell at `(row, col)` is occupied. -/
def occupied (map : List Int) (row col : Int) : Prop :=
  0 ≤ row ∧ 0 ≤ col ∧ cell map row.toNat col.toNat ≠ 0

/-- Row `y` is fully occupied. -/
def full_row (map : List Int) (y : Nat) : Prop :=
  ∀ x, x < WIDTH → cell map y x ≠ 0

/-- Number of fully occupied rows among rows `0 .. n-1`. -/
def count_full_rows (map : List Int) (n : Nat) : Nat :=
  for_range n (fun y c => if ∀ x, x < WIDTH → cell map y x ≠ 0 then c + 1 else c) 0

/-! ## Auxiliary definitions for the proofs -/

/-- Sequential stores `buf[p] = v0; buf[p+1] = v1; ...`. -/
def write_list (buf : List Int) (p : Nat) : List Nat → List Int
  | [] => buf
  | v :: vs => write_list (buf.set p (v : Int)) (p + 1) vs

/-- The indices below `N` at which `R` holds a non-zero value, in increasing
order. -/
def found (R : List Int) (N : Nat) : List Nat :=
  (List.range N).filter (fun idx => decide (R.getD idx 0 ≠ 0))

/-- The state of `collect_cells` after it has scanned the first `N` cells. -/
def scanned (R : List Int) (buf : List Int) (p N : Nat) : List Int × Nat :=
  (write_list buf p (found R N), p + (found R N).length)

/-- The turned index, on naturals. -/
def imgN (w h k : Nat) : Nat := (k % w) * h + (h - 1 - k / w)

/-- The inverse of `imgN`. -/
def preN (w h idx : Nat) : Nat := (h - 1 - idx % h) * w + idx / h

/-- The array `map_2d` after the four cells have been marked. -/
def marked (w h a b c d : Nat) : List Int :=
  ((((List.replicate (h * w) (0 : Int)).set a 1).set b 1).set c 1).set d 1

instance wf_shape_decidable (data : List Int) : Decidable (wf_shape data) := by
  unfold wf_shape
  split <;> infer_instance

instance board_wf_decidable (map : List Int) : Decidable (board_wf map) := by
  unfold board_wf; infer_instance

instance occupied_decidable (map : List Int) (row col : Int) : Decidable (occupied map row col) := by
  unfold occupied; infer_instance

instance full_row_decidable (map : List Int) (y : Nat) : Decidable (full_row map y) := by
  unfold full_row; infer_instance

/-- The test of one iteration of the collision loop, for `index_below = ib`. -/
def hits (map : List Int) (ib : Int) : Prop :=
  (WIDTH : Int) * (HEIGHT : Int) ≤ ib ∨ map.getD ib.toNat 0 = 1

instance hits_decidable (map : List Int) (ib : Int) : Decidable (hits map ib) := by
  unfold hits; infer_instance

/-- The lines 283-296 for one full row `y`: zero it, then shift the rows above. -/
def clear_line (map : List Int) (y : Nat) : List Int :=
  shift_rows_down (clear_row map y) y

/-- The body of the loop over `y` in `handle_complete_lines`. -/
def line_step (y : Nat) (st : List Int × Int) : List Int × Int :=
  if row_has_empty_tile st.1 y = 0 then
    (shift_rows_down (clear_row st.1 y) y, st.2 + 1)
  else st

/-! ## Boards and states used as concrete inputs -/

/-- The board used to exercise the collision check: empty except for the
cell in row 5, column 1. -/
def board_one_cell : List Int :=
  (List.range 100).map (fun j => if j = 51 then 1 else 0)

/-- A board with a stack in column 0 that reaches row 0 (two upright 4-long
pieces under a square), an upright 4-long piece in column 9, and row 9 fully
occupied. -/
def board_column_and_bottom : List Int :=
  (List.range 100).map (fun j =>
    if j % 10 = 0 ∨ j = 1 ∨ j = 11 ∨ 90 ≤ j ∨ (j % 10 = 9 ∧ 60 ≤ j) then 1 else 0)

/-- A board whose row 9 is full and whose row 8 holds one cell, in column 4. -/
def board_bottom_full : List Int :=
  (List.range 100).map (fun j => if j = 84 ∨ 90 ≤ j then 1 else 0)

/-- The four absolute board indices of the piece `data` at `(x, y)`. -/
def piece_cells (data : List Int) (x y : Int) : List Int :=
  [calc_piece_index data 0 x y, calc_piece_index data 1 x y,
   calc_piece_index data 2 x y, calc_piece_index data 3 x y]

/-- A state in which the piece `pieces[2]` hangs over the right edge at
`piece_x = 8`, `piece_y = -1`, above a stack in column 8 that reaches row 1. -/
def state_over_edge : State :=
  { map := (List.range 100).map (fun j => if j % 10 = 8 ∧ 10 ≤ j then 1 else 0)
    piece_index := 2
    piece_x := 8
    piece_y := -1
    move_delay_count := 0
    rotation := 0
    score := 0
    game_over := 0
    rotated_map := [0, 0, 0, 0, 0, 0] }

/-- A state in which the 4-long piece, rotated once, stands on the floor of
an empty board. -/
def state_upright_on_floor : State :=
  { map := List.replicate 100 0
    piece_index := 0
    piece_x := 0
    piece_y := 6
    move_delay_count := 0
    rotation := 1
    score := 0
    game_over := 0
    rotated_map := [0, 0, 0, 0, 0, 0] }

/-! ## Runs of the loop -/

/-- The state on entry to the loop of `main` (lines 158-182): empty board,
first piece `random_number(0, 6)` at `(0, -1)`, counter, rotation, score and
`game_over` zero.  `r` is the value `rand()` returns for the first piece; the
static buffer of `rotate_1d_map` starts zeroed. -/
def initial_state (r : Nat) : State :=
  { map := List.replicate (WIDTH * HEIGHT) 0
    piece_index := random_number r 0 6
    piece_x := 0
    piece_y := -1
    move_delay_count := 0
    rotation := 0
    score := 0
    game_over := 0
    rotated_map := [0, 0, 0, 0, 0, 0] }

/-- Successive iterations of the loop of `main`: one `tick` per element, each
with its input and the two values `rand()` would return in it. -/
def run (s : State) : List (Input × Nat × Nat) → Step State
  | [] => Step.next s
  | (inp, r1, r2) :: rest =>
    match tick s inp r1 r2 with
    | Step.next s1 => run s1 rest
    | Step.quit => Step.quit
    | Step.undefined => Step.undefined

/-- The input is the restart command: a key was read and it is SPACE. -/
def is_restart (inp : Input) : Prop :=
  inp.bytesRead > 0 ∧ inp.b0 = 32

instance is_restart_decidable (inp : Input) : Decidable (is_restart inp) := by
  unfold is_restart; infer_instance

/-- The state `s` with the flag `game_over` set to `g`. -/
def set_flag (g : Int) (s : State) : State :=
  { s with game_over := g }

/-- A board whose row 9 is occupied except in column 0, all other rows
empty. -/
def board_gap_left : List Int :=
  (List.range 100).map (fun j => if 91 ≤ j then 1 else 0)

/-- The 4-long piece, rotated once, in column 0 just above its resting place
over `board_gap_left`, the gravity counter about to fire. -/
def state_gap_drop : State :=
  { map := board_gap_left
    piece_index := 0
    piece_x := 0
    piece_y := 5
    move_delay_count := 10
    rotation := 1
    score := 0
    game_over := 0
    rotated_map := [0, 0, 0, 0, 0, 0] }

/-- One tick without input in which no collision is detected: the state
after it; `none` when the tick detects a collision, or is not defined. -/
def idle_tick (s : State) : Option State :=
  match tick_check s no_key 0 with
  | Step.next (_, _, c) =>
    if c = 0 then
      match tick s no_key 0 0 with
      | Step.next s1 => some s1
      | _ => none
    else none
  | _ => none

/-- The state after `n` successive ticks without input and without
collision. -/
def idle_ticks : Nat → State → Option State
  | 0, s => some s
  | n + 1, s => (idle_tick s).bind (idle_ticks n)

/-- The first piece `pieces[0]` on its way down the empty board, as it is
after `k` ticks without input from the initial state: `k / 11` rows below its
first row, the gravity counter at `k % 11`. -/
def falling (k : Nat) : State :=
  { initial_state 0 with
    piece_y := ((k / 11 : Nat) : Int) - 1
    move_delay_count := ((k % 11 : Nat) : Int) }

/-- The board with exactly the cells `x = 0 .. 3` of row 9 occupied. -/
def board_first_piece : List Int :=
  (List.range 100).map (fun j => if 90 ≤ j ∧ j ≤ 93 then 1 else 0)

/-- The input of a tick without key, with the two values of `rand()`. -/
def idle (r : Nat × Nat) : Input × Nat × Nat :=
  (no_key, r.1, r.2)

/-- The state reached from the initial state with first piece `pieces[3]`
(the square) by nine ticks with arrow-down, all draws of `rand()` being 0:
the square has locked on the floor and `pieces[0]` has been spawned at
`(0, -2)`. -/
def state_after_first_lock : State :=
  { map := (List.range 100).map (fun j => if j = 80 ∨ j = 81 ∨ j = 90 ∨ j = 91 then 1 else 0)
    piece_index := 0
    piece_x := 0
    piece_y := -2
    move_delay_count := 9
    rotation := 0
    score := 0
    game_over := 0
    rotated_map := [0, 0, 0, 0, 0, 0] }

/-- The state after the tick that restarts the game from `state_gap_drop`
with `game_over` set, the restart drawing `pieces[2]` and gravity firing. -/
def state_restarted : State :=
  { map := List.replicate 100 0
    piece_index := 2
    piece_x := 0
    piece_y := -1
    move_delay_count := 0
    rotation := 1
    score := 0
    game_over := 0
    rotated_map := [1, 4, 0, 1, 2, 3] }

theorem for_range_succ {σ : Type} (n : Nat) (body : Nat → σ → σ) (init : σ) :
    for_range (n + 1) body init = body n (for_range n body init) := rfl

theorem getD_set (l : List Int) (i j : Nat) (a d : Int) :
    (l.set i a).getD j d = if i = j ∧ i < l.length then a else l.getD j d := by
  simp only [List.getD_eq_getElem?_getD, List.getElem?_set]
  by_cases hij : i = j
  · subst hij
    by_cases hi : i < l.length
    · simp [hi]
    · simp [hi, List.getElem?_eq_none (Nat.le_of_not_lt hi)]
  · simp [hij]

/-- Inner loop of `rotate_2d` for a fixed column `x`: after `Y` iterations the
cells `x*h + (h-y-1)`, `y < Y`, hold `map_2d[y][x]`; nothing else moved. -/
theorem rotate_2d_inner (w h x : Nat) (M : List Int) (hx : x < w) :
    ∀ (Y : Nat) (r : List Int), Y ≤ h → r.length = w * h →
      let r1 := for_range Y (fun y r => r.set (x * h + (h - y - 1)) (M.getD (y * w + x) 0)) r
      r1.length = w * h ∧
      (∀ y, y < Y → r1.getD (x * h + (h - y - 1)) 0 = M.getD (y * w + x) 0) ∧
      (∀ j, (j < x * h + (h - Y) ∨ x * h + h ≤ j) → r1.getD j 0 = r.getD j 0) := by
  intro Y
  induction Y with
  | zero =>
    intro r _ hr
    simp [for_range, hr]
  | succ Y ih =>
    intro r hY hr
    obtain ⟨hlen, hin, hout⟩ := ih r (by omega) hr
    have hxh : x * h + h ≤ w * h := by
      have := Nat.mul_le_mul_right h (Nat.succ_le_of_lt hx)
      simpa [Nat.succ_mul] using this
    simp only [for_range_succ]
    refine ⟨by rw [List.length_set]; exact hlen, ?_, ?_⟩
    · intro y hy
      rw [getD_set]
      by_cases hyY : y = Y
      · subst hyY
        rw [if_pos ⟨rfl, by rw [hlen]; omega⟩]
      · have hne : ¬ (x * h + (h - Y - 1) = x * h + (h - y - 1)) := by omega
        simp only [hne, false_and, if_false]
        exact hin y (by omega)
    · intro j hj
      rw [getD_set]
      have hne : ¬ (x * h + (h - Y - 1) = j) := by omega
      simp only [hne, false_and, if_false]
      exact hout j (by omega)

/-- After `rotate_2d`, `rotated_map_2d[x][yy] = map_2d[h-1-yy][x]`. -/
theorem rotate_2d_outer (w h : Nat) (M : List Int) :
    ∀ (X : Nat), X ≤ w →
      let r1 := for_range X (fun x r =>
        for_range h (fun y r =>
          r.set (x * h + (h - y - 1)) (M.getD (y * w + x) 0)) r) (List.replicate (w * h) 0)
      r1.length = w * h ∧
      (∀ x yy, x < X → yy < h → r1.getD (x * h + yy) 0 = M.getD ((h - 1 - yy) * w + x) 0) := by
  intro X
  induction X with
  | zero => intro _; simp [for_range]
  | succ X ih =>
    intro hX
    obtain ⟨hlen, hprev⟩ := ih (by omega)
    simp only [for_range_succ]
    obtain ⟨hlen1, hin, hout⟩ := rotate_2d_inner w h X M (by omega) h _ (le_refl h) hlen
    refine ⟨hlen1, ?_⟩
    intro x yy hx hyy
    by_cases hxX : x = X
    · subst hxX
      have := hin (h - 1 - yy) (by omega)
      have e : h - (h - 1 - yy) - 1 = yy := by omega
      rw [e] at this
      exact this
    · have hxlt : x < X := by omega
      have hxh : x * h + h ≤ X * h := by
        have := Nat.mul_le_mul_right h (Nat.succ_le_of_lt hxlt)
        simpa [Nat.succ_mul] using this
      rw [hout (x * h + yy) (Or.inl (by omega))]
      exact hprev x yy hxlt hyy

theorem rotate_2d_spec (w h : Nat) (M : List Int) :
    (rotate_2d w h M).length = w * h ∧
    ∀ x yy, x < w → yy < h →
      (rotate_2d w h M).getD (x * h + yy) 0 = M.getD ((h - 1 - yy) * w + x) 0 :=
  rotate_2d_outer w h M w (le_refl w)

theorem write_list_append (vs : List Nat) :
    ∀ (buf : List Int) (p : Nat) (v : Nat),
      write_list buf p (vs ++ [v]) = (write_list buf p vs).set (p + vs.length) (v : Int) := by
  induction vs with
  | nil => intro buf p v; simp [write_list]
  | cons a vs ih =>
    intro buf p v
    show write_list (buf.set p (a : Int)) (p + 1) (vs ++ [v]) = _
    rw [ih]
    simp only [write_list, List.length_cons]
    congr 1
    omega

theorem found_succ (R : List Int) (N : Nat) :
    found R (N + 1) = found R N ++ (if R.getD N 0 ≠ 0 then [N] else []) := by
  unfold found
  rw [List.range_succ, List.filter_append]
  by_cases hN : R.getD N 0 ≠ 0
  · rw [if_pos hN]
    congr 1
    simp only [List.filter_cons, List.filter_nil, decide_eq_true hN, if_true]
  · rw [if_neg hN]
    congr 1
    simp only [List.filter_cons, List.filter_nil, decide_eq_false hN]
    rfl

theorem collect_inner (h y : Nat) (R buf : List Int) (p : Nat) :
    ∀ X : Nat,
      for_range X (fun x (st : List Int × Nat) =>
        if R.getD (y * h + x) 0 ≠ 0 then
          (st.1.set st.2 ((y * h + x : Nat) : Int), st.2 + 1)
        else st) (scanned R buf p (y * h)) = scanned R buf p (y * h + X) := by
  intro X
  induction X with
  | zero => rfl
  | succ X ih =>
    rw [for_range_succ, ih]
    unfold scanned
    rw [← Nat.add_assoc, found_succ]
    by_cases hN : R.getD (y * h + X) 0 ≠ 0
    · simp only [hN, if_true, write_list_append, List.length_append, List.length_singleton,
        Nat.add_assoc, ne_eq, not_false_eq_true]
    · simp only [hN, if_false, List.append_nil]

theorem collect_cells_spec (w h : Nat) (R buf : List Int) (p : Nat) :
    collect_cells w h R (buf, p) = scanned R buf p (w * h) := by
  unfold collect_cells
  have key : ∀ Y : Nat,
      for_range Y (fun y (st : List Int × Nat) =>
        for_range h (fun x (st : List Int × Nat) =>
          if R.getD (y * h + x) 0 ≠ 0 then
            (st.1.set st.2 ((y * h + x : Nat) : Int), st.2 + 1)
          else st) st) (buf, p) = scanned R buf p (Y * h) := by
    intro Y
    induction Y with
    | zero => simp [for_range, scanned, found, write_list]
    | succ Y ih =>
      rw [for_range_succ, ih, collect_inner, Nat.succ_mul]
  exact key w

theorem divmod_unique (n q r : Nat) (hr : r < n) :
    (q * n + r) / n = q ∧ (q * n + r) % n = r := by
  have hn : 0 < n := by omega
  constructor
  · rw [Nat.add_comm, Nat.add_mul_div_right _ _ hn, Nat.div_eq_of_lt hr, Nat.zero_add]
  · rw [Nat.add_comm, Nat.add_mul_mod_self_right, Nat.mod_eq_of_lt hr]

theorem preN_imgN (w h k : Nat) (hw : 0 < w) (hk : k < w * h) : preN w h (imgN w h k) = k := by
  have hq : k / w < h := Nat.div_lt_of_lt_mul hk
  have hr : k % w < w := Nat.mod_lt _ hw
  have hk' := Nat.div_add_mod k w
  rw [Nat.mul_comm] at hk'
  unfold preN imgN
  generalize k / w = q at hq hk' ⊢
  generalize k % w = r at hr hk' ⊢
  obtain ⟨e1, e2⟩ := divmod_unique h r (h - 1 - q) (by omega)
  rw [e1, e2]
  have e3 : h - 1 - (h - 1 - q) = q := by omega
  rw [e3]
  exact hk'

theorem imgN_preN (w h idx : Nat) (hh : 0 < h) (hidx : idx < w * h) :
    imgN w h (preN w h idx) = idx := by
  have hq : idx / h < w := Nat.div_lt_of_lt_mul (by rw [Nat.mul_comm]; exact hidx)
  have hr : idx % h < h := Nat.mod_lt _ hh
  have hk' := Nat.div_add_mod idx h
  rw [Nat.mul_comm] at hk'
  unfold imgN preN
  generalize idx / h = q at hq hk' ⊢
  generalize idx % h = r at hr hk' ⊢
  obtain ⟨e1, e2⟩ := divmod_unique w (h - 1 - r) q hq
  rw [e1, e2]
  have e3 : h - 1 - (h - 1 - r) = r := by omega
  rw [e3]
  exact hk'

theorem imgN_lt (w h k : Nat) (hw : 0 < w) (hk : k < w * h) : imgN w h k < w * h := by
  have hq : k / w < h := Nat.div_lt_of_lt_mul hk
  have hr : k % w < w := Nat.mod_lt _ hw
  unfold imgN
  generalize k / w = q at hq ⊢
  generalize k % w = r at hr ⊢
  have := Nat.mul_le_mul_right h (Nat.succ_le_of_lt hr)
  rw [Nat.succ_mul] at this
  omega

theorem rotated_cell_cast (w h k : Nat) (hk : k < w * h) :
    rotated_cell (w : Int) (h : Int) (k : Int) = ((imgN w h k : Nat) : Int) := by
  have hq : k / w < h := Nat.div_lt_of_lt_mul hk
  unfold rotated_cell imgN
  rw [← Int.ofNat_tdiv, ← Int.ofNat_tmod]
  generalize k / w = q at hq ⊢
  generalize k % w = r
  push_cast
  rw [Nat.cast_sub (by omega), Nat.cast_sub (by omega)]
  push_cast
  ring

theorem mark_cell_ok (w h k : Nat) (m : List Int) (hw : 0 < w) (hk : k < w * h) :
    mark_cell (w : Int) (h : Int) m (k : Int) = some (m.set k 1) := by
  have hq : k / w < h := Nat.div_lt_of_lt_mul hk
  have hr : k % w < w := Nat.mod_lt _ hw
  unfold mark_cell
  simp only [← Int.ofNat_tdiv, ← Int.ofNat_tmod, Int.toNat_ofNat]
  rw [if_pos]
  · have := Nat.div_add_mod k w
    rw [Nat.mul_comm] at this
    rw [this]
  · refine ⟨by positivity, by exact_mod_cast hr, by positivity, by exact_mod_cast hq⟩

theorem getD_replicate_zero (n j : Nat) : (List.replicate n (0 : Int)).getD j 0 = 0 := by
  rw [List.getD_eq_getElem?_getD, List.getElem?_replicate]
  by_cases hj : j < n
  · rw [if_pos hj]; rfl
  · rw [if_neg hj]; rfl

theorem marked_getD (w h a b c d : Nat) (ha : a < w * h) (hb : b < w * h) (hc : c < w * h)
    (hd : d < w * h) (j : Nat) :
    (marked w h a b c d).getD j 0 ≠ 0 ↔ j ∈ [a, b, c, d] := by
  unfold marked
  rw [Nat.mul_comm w h] at ha hb hc hd
  simp only [getD_set, List.length_set, List.length_replicate, getD_replicate_zero,
    List.mem_cons, List.mem_singleton, List.not_mem_nil, or_false]
  by_cases e1 : d = j <;> by_cases e2 : c = j <;> by_cases e3 : b = j <;> by_cases e4 : a = j <;>
    simp [e1, e2, e3, e4, ha, hb, hc, hd] <;> omega

theorem rotate_1d_map_nat (buf : List Int) (w h a b c d : Nat) (hw : 0 < w) (hh : 0 < h)
    (ha : a < w * h) (hb : b < w * h) (hc : c < w * h) (hd : d < w * h) :
    rotate_1d_map buf [(w : Int), (h : Int), (a : Int), (b : Int), (c : Int), (d : Int)] =
      some (write_list ((buf.set 0 (h : Int)).set 1 (w : Int)) 2
        (found (rotate_2d w h (marked w h a b c d)) (w * h))) := by
  unfold rotate_1d_map
  have hcond : ¬ ((w : Int) ≤ 0 ∨ (h : Int) ≤ 0) := by
    intro hc
    rcases hc with hc | hc <;> omega
  simp only [List.getD_cons_zero, List.getD_cons_succ, for_range, Option.some_bind,
    if_neg hcond, Int.toNat_ofNat]
  rw [mark_cell_ok w h a _ hw ha]
  simp only [Option.some_bind]
  rw [mark_cell_ok w h b _ hw hb]
  simp only [Option.some_bind]
  rw [mark_cell_ok w h c _ hw hc]
  simp only [Option.some_bind]
  rw [mark_cell_ok w h d _ hw hd]
  simp only [collect_cells_spec, scanned]
  rfl

theorem mem_found (R : List Int) (N idx : Nat) :
    idx ∈ found R N ↔ idx < N ∧ R.getD idx 0 ≠ 0 := by
  unfold found
  rw [List.mem_filter, List.mem_range, decide_eq_true_iff]

theorem found_sorted (R : List Int) (N : Nat) : (found R N).Pairwise (fun x y => x < y) :=
  List.Pairwise.filter _ (List.pairwise_lt_range N)

theorem mem_found_rotate (w h a b c d : Nat) (hw : 0 < w) (hh : 0 < h)
    (ha : a < w * h) (hb : b < w * h) (hc : c < w * h) (hd : d < w * h) (idx : Nat) :
    idx ∈ found (rotate_2d w h (marked w h a b c d)) (w * h) ↔
      idx ∈ [imgN w h a, imgN w h b, imgN w h c, imgN w h d] := by
  rw [mem_found]
  constructor
  · rintro ⟨hidx, hne⟩
    have hq : idx / h < w := Nat.div_lt_of_lt_mul (by rw [Nat.mul_comm]; exact hidx)
    have hr : idx % h < h := Nat.mod_lt _ hh
    have e := (rotate_2d_spec w h (marked w h a b c d)).2 (idx / h) (idx % h) hq hr
    have hdm := Nat.div_add_mod idx h
    rw [Nat.mul_comm] at hdm
    rw [hdm] at e
    rw [e] at hne
    have hm := (marked_getD w h a b c d ha hb hc hd ((h - 1 - idx % h) * w + idx / h)).1 hne
    have hi := imgN_preN w h idx hh hidx
    unfold preN at hi
    simp only [List.mem_cons, List.mem_singleton, List.not_mem_nil, or_false] at hm ⊢
    rcases hm with hm | hm | hm | hm <;> rw [hm] at hi <;> simp [hi]
  · intro hmem
    have hkey : ∀ k, k < w * h → k ∈ [a, b, c, d] →
        imgN w h k < w * h ∧ (rotate_2d w h (marked w h a b c d)).getD (imgN w h k) 0 ≠ 0 := by
      intro k hk hkm
      have hlt := imgN_lt w h k hw hk
      refine ⟨hlt, ?_⟩
      set idx := imgN w h k with hidx
      have hq : idx / h < w := Nat.div_lt_of_lt_mul (by rw [Nat.mul_comm]; exact hlt)
      have hr : idx % h < h := Nat.mod_lt _ hh
      have e := (rotate_2d_spec w h (marked w h a b c d)).2 (idx / h) (idx % h) hq hr
      have hdm := Nat.div_add_mod idx h
      rw [Nat.mul_comm] at hdm
      rw [hdm] at e
      rw [e]
      have hp := preN_imgN w h k hw hk
      rw [← hidx] at hp
      unfold preN at hp
      rw [hp]
      exact (marked_getD w h a b c d ha hb hc hd k).2 hkm
    simp only [List.mem_cons, List.mem_singleton, List.not_mem_nil, or_false] at hmem
    rcases hmem with e | e | e | e <;> rw [e]
    · exact hkey a ha (by simp)
    · exact hkey b hb (by simp)
    · exact hkey c hc (by simp)
    · exact hkey d hd (by simp)

theorem found_rotate_four (w h a b c d : Nat) (hw : 0 < w) (hh : 0 < h)
    (ha : a < w * h) (hb : b < w * h) (hc : c < w * h) (hd : d < w * h)
    (hnd : [a, b, c, d].Nodup) :
    ∃ a1 b1 c1 d1 : Nat,
      found (rotate_2d w h (marked w h a b c d)) (w * h) = [a1, b1, c1, d1] ∧
      a1 < b1 ∧ b1 < c1 ∧ c1 < d1 ∧
      ∀ v, v ∈ [a1, b1, c1, d1] ↔ v ∈ [imgN w h a, imgN w h b, imgN w h c, imgN w h d] := by
  have hsorted := found_sorted (rotate_2d w h (marked w h a b c d)) (w * h)
  have hmem := mem_found_rotate w h a b c d hw hh ha hb hc hd
  have hnd1 : (found (rotate_2d w h (marked w h a b c d)) (w * h)).Nodup :=
    hsorted.imp (fun hlt => Nat.ne_of_lt hlt)
  have hnd2 : ([a, b, c, d].map (imgN w h)).Nodup := by
    refine List.Nodup.map_on ?_ hnd
    intro x hx y hy hxy
    have hx' : x < w * h := by
      simp only [List.mem_cons, List.mem_singleton, List.not_mem_nil, or_false] at hx
      rcases hx with e | e | e | e <;> rw [e] <;> assumption
    have hy' : y < w * h := by
      simp only [List.mem_cons, List.mem_singleton, List.not_mem_nil, or_false] at hy
      rcases hy with e | e | e | e <;> rw [e] <;> assumption
    rw [← preN_imgN w h x hw hx', ← preN_imgN w h y hw hy', hxy]
  have hperm := (List.perm_ext_iff_of_nodup hnd1 hnd2).2 hmem
  have hlen := hperm.length_eq
  generalize found (rotate_2d w h (marked w h a b c d)) (w * h) = F at hsorted hmem hlen
  match F, hlen with
  | [a1, b1, c1, d1], _ =>
    refine ⟨a1, b1, c1, d1, rfl, ?_, ?_, ?_, hmem⟩
    · exact (List.pairwise_cons.1 hsorted).1 b1 (by simp)
    · exact (List.pairwise_cons.1 (List.pairwise_cons.1 hsorted).2).1 c1 (by simp)
    · exact (List.pairwise_cons.1 (List.pairwise_cons.1 (List.pairwise_cons.1 hsorted).2).2).1 d1
        (by simp)

theorem write_list_four (buf : List Int) (hbuf : buf.length = 6) (w h : Int) (a b c d : Nat) :
    write_list ((buf.set 0 h).set 1 w) 2 [a, b, c, d] =
      [h, w, (a : Int), (b : Int), (c : Int), (d : Int)] := by
  match buf, hbuf with
  | [s0, s1, s2, s3, s4, s5], _ => rfl

/-- Closed form of `rotate_1d_map` on a well-formed descriptor. -/
theorem rotate_1d_map_wf (buf : List Int) (hbuf : buf.length = 6) (w h a b c d : Int)
    (hw : 1 ≤ w) (hh : 1 ≤ h)
    (hcells : ∀ k ∈ [a, b, c, d], 0 ≤ k ∧ k < w * h) (hnd : [a, b, c, d].Nodup) :
    ∃ a1 b1 c1 d1 : Int,
      rotate_1d_map buf [w, h, a, b, c, d] = some [h, w, a1, b1, c1, d1] ∧
      a1 < b1 ∧ b1 < c1 ∧ c1 < d1 ∧
      ∀ v, v ∈ [a1, b1, c1, d1] ↔
        v ∈ [rotated_cell w h a, rotated_cell w h b, rotated_cell w h c, rotated_cell w h d] := by
  have ha := hcells a (by simp)
  have hb := hcells b (by simp)
  have hc := hcells c (by simp)
  have hd := hcells d (by simp)
  lift w to ℕ using (by omega)
  lift h to ℕ using (by omega)
  lift a to ℕ using ha.1
  lift b to ℕ using hb.1
  lift c to ℕ using hc.1
  lift d to ℕ using hd.1
  have ha' : a < w * h := by exact_mod_cast ha.2
  have hb' : b < w * h := by exact_mod_cast hb.2
  have hc' : c < w * h := by exact_mod_cast hc.2
  have hd' : d < w * h := by exact_mod_cast hd.2
  have hnd' : [a, b, c, d].Nodup := by
    have := hnd
    simp only [List.nodup_cons, List.mem_cons, List.mem_singleton, List.not_mem_nil, or_false,
      Nat.cast_inj] at this
    simpa using this
  obtain ⟨a1, b1, c1, d1, hF, h1, h2, h3, hmem⟩ :=
    found_rotate_four w h a b c d (by omega) (by omega) ha' hb' hc' hd' hnd'
  refine ⟨a1, b1, c1, d1, ?_, by exact_mod_cast h1, by exact_mod_cast h2,
    by exact_mod_cast h3, ?_⟩
  · rw [rotate_1d_map_nat buf w h a b c d (by omega) (by omega) ha' hb' hc' hd', hF,
      write_list_four buf hbuf]
  · intro v
    rw [rotated_cell_cast w h a ha', rotated_cell_cast w h b hb', rotated_cell_cast w h c hc',
      rotated_cell_cast w h d hd']
    have e1 : ([(a1 : Int), (b1 : Int), (c1 : Int), (d1 : Int)] : List Int) =
        [a1, b1, c1, d1].map (fun n : Nat => (n : Int)) := rfl
    have e2 : ([(imgN w h a : Int), (imgN w h b : Int), (imgN w h c : Int), (imgN w h d : Int)]
        : List Int) = [imgN w h a, imgN w h b, imgN w h c, imgN w h d].map
          (fun n : Nat => (n : Int)) := rfl
    rw [e1, e2, List.mem_map, List.mem_map]
    constructor
    · rintro ⟨n, hn, rfl⟩
      exact ⟨n, (hmem n).1 hn, rfl⟩
    · rintro ⟨n, hn, rfl⟩
      exact ⟨n, (hmem n).2 hn, rfl⟩

theorem rotated_cell_bounds (w h k : Int) (hw : 1 ≤ w) (hh : 1 ≤ h) (hk0 : 0 ≤ k)
    (hk : k < w * h) : 0 ≤ rotated_cell w h k ∧ rotated_cell w h k < h * w := by
  lift w to ℕ using (by omega)
  lift h to ℕ using (by omega)
  lift k to ℕ using hk0
  have hk1 : k < w * h := by exact_mod_cast hk
  have hlt := imgN_lt w h k (by omega) hk1
  rw [rotated_cell_cast w h k hk1]
  constructor
  · positivity
  · rw [mul_comm]
    exact_mod_cast hlt

/-- The result of `rotate_1d_map` does not depend on what the static buffer
held before the call. -/
theorem rotate_1d_map_buf_irrel (data buf1 buf2 : List Int) (hwf : wf_shape data)
    (h1 : buf1.length = 6) (h2 : buf2.length = 6) :
    rotate_1d_map buf1 data = rotate_1d_map buf2 data := by
  unfold wf_shape at hwf
  split at hwf
  · rename_i w h a b c d
    obtain ⟨hw, hh, hcells, hnd⟩ := hwf
    have ha := hcells a (by simp)
    have hb := hcells b (by simp)
    have hc := hcells c (by simp)
    have hd := hcells d (by simp)
    lift w to ℕ using (by omega)
    lift h to ℕ using (by omega)
    lift a to ℕ using ha.1
    lift b to ℕ using hb.1
    lift c to ℕ using hc.1
    lift d to ℕ using hd.1
    have ha1 : a < w * h := by exact_mod_cast ha.2
    have hb1 : b < w * h := by exact_mod_cast hb.2
    have hc1 : c < w * h := by exact_mod_cast hc.2
    have hd1 : d < w * h := by exact_mod_cast hd.2
    have hnd1 : [a, b, c, d].Nodup := by
      have := hnd
      simp only [List.nodup_cons, List.mem_cons, List.mem_singleton, List.not_mem_nil, or_false,
        Nat.cast_inj] at this
      simpa using this
    obtain ⟨a1, b1, c1, d1, hF, -⟩ :=
      found_rotate_four w h a b c d (by omega) (by omega) ha1 hb1 hc1 hd1 hnd1
    rw [rotate_1d_map_nat buf1 w h a b c d (by omega) (by omega) ha1 hb1 hc1 hd1,
      rotate_1d_map_nat buf2 w h a b c d (by omega) (by omega) ha1 hb1 hc1 hd1, hF,
      write_list_four buf1 h1, write_list_four buf2 h2]
  · exact hwf.elim

/-- A well-formed descriptor is rotated into a well-formed descriptor with
width and height swapped. -/
theorem wf_shape_rotate (data buf : List Int) (hwf : wf_shape data) (hbuf : buf.length = 6) :
    ∃ r, rotate_1d_map buf data = some r ∧ wf_shape r ∧ r.length = 6 ∧
      r.getD 0 0 = data.getD 1 0 ∧ r.getD 1 0 = data.getD 0 0 := by
  unfold wf_shape at hwf
  split at hwf
  · rename_i w h a b c d
    obtain ⟨hw, hh, hcells, hnd⟩ := hwf
    obtain ⟨a1, b1, c1, d1, hr, h1, h2, h3, hmem⟩ :=
      rotate_1d_map_wf buf hbuf w h a b c d hw hh hcells hnd
    refine ⟨_, hr, ?_, rfl, rfl, rfl⟩
    refine ⟨hh, hw, ?_, ?_⟩
    · intro k hk
      have hk1 := (hmem k).1 hk
      simp only [List.mem_cons, List.mem_singleton, List.not_mem_nil, or_false] at hk1
      rcases hk1 with e | e | e | e <;> rw [e]
      · exact rotated_cell_bounds w h a hw hh (hcells a (by simp)).1 (hcells a (by simp)).2
      · exact rotated_cell_bounds w h b hw hh (hcells b (by simp)).1 (hcells b (by simp)).2
      · exact rotated_cell_bounds w h c hw hh (hcells c (by simp)).1 (hcells c (by simp)).2
      · exact rotated_cell_bounds w h d hw hh (hcells d (by simp)).1 (hcells d (by simp)).2
    · simp only [List.nodup_cons, List.mem_cons, List.mem_singleton, List.not_mem_nil, or_false,
        not_false_eq_true, List.nodup_nil, and_true, not_or]
      omega
  · exact hwf.elim

theorem rotate_times_succ (n : Nat) (data buf : List Int) :
    rotate_times (n + 1) data buf =
      (rotate_times n data buf).bind (fun p => (rotate_1d_map p.2 p.1).map (fun r => (r, r))) :=
  rfl

/-- Any number of rotations of a well-formed descriptor is defined and gives
a well-formed descriptor; the bound on the larger side is kept. -/
theorem wf_shape_rotate_times (data buf : List Int) (hwf : wf_shape data)
    (hbuf : buf.length = 6) (m : Int) (hm0 : data.getD 0 0 ≤ m) (hm1 : data.getD 1 0 ≤ m) :
    ∀ n : Nat, ∃ r b, rotate_times n data buf = some (r, b) ∧ wf_shape r ∧ b.length = 6 ∧
      r.getD 0 0 ≤ m ∧ r.getD 1 0 ≤ m := by
  intro n
  induction n with
  | zero => exact ⟨data, buf, rfl, hwf, hbuf, hm0, hm1⟩
  | succ n ih =>
    obtain ⟨r, b, hr, hwfr, hb, h0, h1⟩ := ih
    obtain ⟨r2, hr2, hwf2, hlen2, e0, e1⟩ := wf_shape_rotate r b hwfr hb
    refine ⟨r2, r2, ?_, hwf2, hlen2, by rw [e0]; exact h1, by rw [e1]; exact h0⟩
    rw [rotate_times_succ, hr]
    simp only [Option.some_bind, hr2, Option.map_some']

theorem rotate_times_buf_irrel (data buf1 buf2 : List Int) (hwf : wf_shape data)
    (h1 : buf1.length = 6) (h2 : buf2.length = 6) (n : Nat) :
    rotate_times (n + 1) data buf1 = rotate_times (n + 1) data buf2 := by
  induction n with
  | zero =>
    rw [rotate_times_succ, rotate_times_succ]
    show (rotate_1d_map buf1 data).map _ = (rotate_1d_map buf2 data).map _
    rw [rotate_1d_map_buf_irrel data buf1 buf2 hwf h1 h2]
  | succ n ih =>
    rw [rotate_times_succ, ih, ← rotate_times_succ]

set_option maxRecDepth 100000 in
theorem catalog_wf : ∀ i : Fin 7, wf_shape (pieces.getD i.val []) ∧
    (pieces.getD i.val []).getD 0 0 ≤ 4 ∧ (pieces.getD i.val []).getD 1 0 ≤ 4 := by
  decide

/-- C2: for every shape descriptor with width `w ≥ 1`, height `h ≥ 1` and
four distinct cell indices in `0 .. w*h-1`, `rotate_1d_map` is defined and
returns a descriptor with width `h` and height `w` whose four cell indices
are, in strictly increasing order, exactly the values `c * h + (h - 1 - r)`
for the input cells at local row `r = k / w` and column `c = k % w`
(`rotated_cell`): the shape turned a quarter turn clockwise.  Each of the 7
catalog shapes, after any number of rotations, is such a descriptor. -/
theorem rotate_1d_map_quarter_turn (buf : List Int) (hbuf : buf.length = 6)
    (w h a b c d : Int) (hw : 1 ≤ w) (hh : 1 ≤ h)
    (hcells : ∀ k ∈ [a, b, c, d], 0 ≤ k ∧ k < w * h) (hnd : [a, b, c, d].Nodup) :
    (∃ a1 b1 c1 d1 : Int,
      rotate_1d_map buf [w, h, a, b, c, d] = some [h, w, a1, b1, c1, d1] ∧
      a1 < b1 ∧ b1 < c1 ∧ c1 < d1 ∧
      ∀ v, v ∈ [a1, b1, c1, d1] ↔
        v ∈ [rotated_cell w h a, rotated_cell w h b, rotated_cell w h c, rotated_cell w h d]) ∧
    (∀ k n : Nat, k < 7 →
      ∃ r b, rotate_times n (pieces.getD k []) buf = some (r, b) ∧ wf_shape r) := by
  refine ⟨rotate_1d_map_wf buf hbuf w h a b c d hw hh hcells hnd, ?_⟩
  intro k n hk
  obtain ⟨hcw, hc0, hc1⟩ := catalog_wf ⟨k, hk⟩
  obtain ⟨r, b, hr, hwf, -⟩ :=
    wf_shape_rotate_times (pieces.getD k []) buf hcw hbuf 4 hc0 hc1 n
  exact ⟨r, b, hr, hwf⟩

theorem rotate_1d_map_quarter_turn_witness :
    ([7, 7, 7, 7, 7, 7] : List Int).length = 6 ∧ (1 : Int) ≤ 3 ∧ (1 : Int) ≤ 2 ∧
    (∀ k ∈ [(0 : Int), 3, 4, 5], 0 ≤ k ∧ k < 3 * 2) ∧ [(0 : Int), 3, 4, 5].Nodup ∧
    ((∃ a1 b1 c1 d1 : Int,
      rotate_1d_map [7, 7, 7, 7, 7, 7] [3, 2, 0, 3, 4, 5] = some [2, 3, a1, b1, c1, d1] ∧
      a1 < b1 ∧ b1 < c1 ∧ c1 < d1 ∧
      ∀ v, v ∈ [a1, b1, c1, d1] ↔
        v ∈ [rotated_cell 3 2 0, rotated_cell 3 2 3, rotated_cell 3 2 4, rotated_cell 3 2 5]) ∧
    (∀ k n : Nat, k < 7 →
      ∃ r b, rotate_times n (pieces.getD k []) [7, 7, 7, 7, 7, 7] = some (r, b) ∧
        wf_shape r)) :=
  ⟨rfl, by decide, by decide, by decide, by decide,
    rotate_1d_map_quarter_turn [7, 7, 7, 7, 7, 7] rfl 3 2 0 3 4 5 (by decide) (by decide)
      (by decide) (by decide)⟩

set_option maxRecDepth 100000 in
theorem catalog_four_turns : ∀ i : Fin 7,
    rotate_times 4 (pieces.getD i.val []) [0, 0, 0, 0, 0, 0] =
      some (pieces.getD i.val [], pieces.getD i.val []) := by
  decide

/-- C1: for each of the 7 catalog shapes, four successive calls of
`rotate_1d_map` (each on the result of the previous one, as in the rotation
loop of `main`) are defined and return a descriptor identical to the
original: same width, same height, same four cell indices. This holds
whatever the static buffer held before the first call. -/
theorem rotate_four_times_catalog (i : Nat) (hi : i < 7) (buf : List Int)
    (hbuf : buf.length = 6) :
    rotate_times 4 (pieces.getD i []) buf = some (pieces.getD i [], pieces.getD i []) := by
  rw [rotate_times_buf_irrel _ buf [0, 0, 0, 0, 0, 0] (catalog_wf ⟨i, hi⟩).1 hbuf rfl 3]
  exact catalog_four_turns ⟨i, hi⟩

theorem rotate_four_times_catalog_witness :
    (1 : Nat) < 7 ∧ ([9, 9, 9, 9, 9, 9] : List Int).length = 6 ∧
      rotate_times 4 (pieces.getD 1 []) [9, 9, 9, 9, 9, 9] =
        some ([3, 2, 0, 3, 4, 5], [3, 2, 0, 3, 4, 5]) :=
  ⟨by decide, rfl, rotate_four_times_catalog 1 (by decide) [9, 9, 9, 9, 9, 9] rfl⟩

/-! ## Collision check -/

/-- The index computed by `calc_piece_index` is row-major in the board:
`(local_row + y) * WIDTH + (local_col + x)`. -/
theorem calc_piece_index_eq (data : List Int) (i : Nat) (x y : Int) :
    calc_piece_index data i x y = cell_row data i y * (WIDTH : Int) + cell_col data i x := by
  unfold calc_piece_index cell_row cell_col
  simp only [Int.tmod_def]
  ring

theorem collision_step (map : List Int) (hlen : map.length = WIDTH * HEIGHT) (ib : Int)
    (hib : 0 ≤ ib) (c : Int) :
    (if ib ≥ (WIDTH : Int) * (HEIGHT : Int) then some (1 : Int)
      else
        match read_map map ib with
        | none => none
        | some v => if v = 1 then some 1 else some c) =
      some (if hits map ib then 1 else c) := by
  unfold hits
  by_cases h1 : (WIDTH : Int) * (HEIGHT : Int) ≤ ib
  · simp [h1]
  · have hlt : ib.toNat < map.length := by
      rw [hlen]
      simp only [WIDTH, HEIGHT] at h1 ⊢
      omega
    have hread : read_map map ib = some (map.getD ib.toNat 0) := by
      unfold read_map
      rw [if_neg (by omega), List.getD_eq_getElem?_getD, List.getElem?_eq_getElem hlt]
      rfl
    rw [hread]
    simp only [ge_iff_le, h1, if_false, false_or]
    split_ifs <;> rfl

/-- When the four indices below the piece are non-negative the collision
check is defined, and `collision` is set exactly when one of the four tests
succeeds. -/
theorem check_collision_some (map : List Int) (hlen : map.length = WIDTH * HEIGHT)
    (data : List Int) (x y : Int)
    (hib : ∀ i, i < 4 → 0 ≤ calc_piece_index data i x y + (WIDTH : Int)) :
    ∃ collision, check_collision map data x y = some collision ∧
      (collision = 0 ∨ collision = 1) ∧
      (collision ≠ 0 ↔ ∃ i, i < 4 ∧ hits map (calc_piece_index data i x y + (WIDTH : Int))) := by
  unfold check_collision
  simp only [for_range, Option.some_bind]
  rw [collision_step map hlen _ (hib 0 (by omega))]
  simp only [Option.some_bind]
  rw [collision_step map hlen _ (hib 1 (by omega))]
  simp only [Option.some_bind]
  rw [collision_step map hlen _ (hib 2 (by omega))]
  simp only [Option.some_bind]
  rw [collision_step map hlen _ (hib 3 (by omega))]
  refine ⟨_, rfl, ?_, ?_⟩
  · split_ifs <;> simp
  · constructor
    · intro hne
      by_cases h3 : hits map (calc_piece_index data 3 x y + (WIDTH : Int))
      · exact ⟨3, by omega, h3⟩
      by_cases h2 : hits map (calc_piece_index data 2 x y + (WIDTH : Int))
      · exact ⟨2, by omega, h2⟩
      by_cases h1 : hits map (calc_piece_index data 1 x y + (WIDTH : Int))
      · exact ⟨1, by omega, h1⟩
      by_cases h0 : hits map (calc_piece_index data 0 x y + (WIDTH : Int))
      · exact ⟨0, by omega, h0⟩
      simp [h0, h1, h2, h3] at hne
    · rintro ⟨i, hi, hh⟩
      have : i = 0 ∨ i = 1 ∨ i = 2 ∨ i = 3 := by omega
      rcases this with e | e | e | e <;> subst e
      all_goals (split_ifs <;> simp_all)

theorem board_wf_getD (map : List Int) (hmap : board_wf map) (j : Nat)
    (hne : map.getD j 0 ≠ 0) : map.getD j 0 = 1 := by
  by_cases hj : j < map.length
  · have hmem : map.getD j 0 ∈ map := by
      rw [List.getD_eq_getElem?_getD, List.getElem?_eq_getElem hj]
      exact List.getElem_mem hj
    rcases hmap.2 _ hmem with h0 | h1
    · exact absurd h0 hne
    · exact h1
  · exfalso
    apply hne
    rw [List.getD_eq_getElem?_getD, List.getElem?_eq_none (by omega)]
    rfl

theorem hits_iff (map : List Int) (hmap : board_wf map) (row col : Int)
    (hcol : 0 ≤ col ∧ col < (WIDTH : Int)) (hrow : 0 ≤ row + 1) :
    hits map (row * (WIDTH : Int) + col + (WIDTH : Int)) ↔
      ((HEIGHT : Int) ≤ row + 1 ∨ occupied map (row + 1) col) := by
  unfold hits occupied cell
  have e : (row * (WIDTH : Int) + col + (WIDTH : Int)).toNat =
      (row + 1).toNat * WIDTH + col.toNat := by
    simp only [WIDTH] at hcol ⊢
    omega
  rw [e]
  simp only [WIDTH, HEIGHT] at hcol ⊢
  constructor
  · rintro (h | h)
    · left; omega
    · right
      refine ⟨hrow, hcol.1, ?_⟩
      rw [h]; decide
  · rintro (h | ⟨_, _, h⟩)
    · left; omega
    · right
      exact board_wf_getD map hmap _ h

set_option maxRecDepth 100000 in
/-- C3, counterexample: 98 ticks without input from the initial state bring
the first piece (`pieces[0]`, flat) to row 7 of the empty board, and the next
tick moves it to row 8.  Its four cells, shifted down by one row, are then in
row 9, the last row, over free cells: the right-hand side of the claim holds
(a shifted cell is at the last row), but the collision check of that tick
leaves the flag 0. -/
theorem check_collision_last_row_counterexample :
    run (initial_state 0) (List.replicate 98 (no_key, 0, 0)) = Step.next (falling 98) ∧
    tick_check (falling 98) no_key 0 = Step.next (falling 99, [4, 1, 0, 1, 2, 3], 0) ∧
    (falling 99).piece_x = 0 ∧ (falling 99).piece_y = 8 ∧
    board_wf (falling 99).map ∧
    (∀ i, i < 4 → 0 ≤ cell_col [4, 1, 0, 1, 2, 3] i 0 ∧
      cell_col [4, 1, 0, 1, 2, 3] i 0 < (WIDTH : Int)) ∧
    (∀ i, i < 4 → 0 ≤ cell_row [4, 1, 0, 1, 2, 3] i 8 + 1) ∧
    (∀ i, i < 4 → cell_row [4, 1, 0, 1, 2, 3] i 8 + 1 = (HEIGHT : Int) - 1) ∧
    check_collision (falling 99).map [4, 1, 0, 1, 2, 3] 0 8 = some 0 ∧
    ¬ ((0 : Int) ≠ 0 ↔ ∃ i, i < 4 ∧
        ((HEIGHT : Int) - 1 ≤ cell_row [4, 1, 0, 1, 2, 3] i 8 + 1 ∨
          occupied (falling 99).map (cell_row [4, 1, 0, 1, 2, 3] i 8 + 1)
            (cell_col [4, 1, 0, 1, 2, 3] i 0))) :=
  ⟨by decide!, by decide, by decide, by decide, by decide, by decide, by decide, by decide,
    by decide, fun h => absurd (h.2 ⟨0, by decide, Or.inl (by decide)⟩) (by decide)⟩

/-- C3, amended: for every board and every active piece (any shape
descriptor, so in particular a catalog shape after any number of rotations)
whose four cells lie in columns `0 .. WIDTH-1` and whose cells, moved down
one row, are in a row `≥ 0`, the collision check is defined and its flag is
set if and only if at least one of the four cells, moved down one row, is
past the last row (in row `HEIGHT` or further down, that is, the cell itself
is in the last row or beyond) or lands on an occupied board cell. -/
theorem check_collision_iff (map : List Int) (hmap : board_wf map) (data : List Int)
    (x y : Int)
    (hcols : ∀ i, i < 4 → 0 ≤ cell_col data i x ∧ cell_col data i x < (WIDTH : Int))
    (hrows : ∀ i, i < 4 → 0 ≤ cell_row data i y + 1) :
    ∃ collision, check_collision map data x y = some collision ∧
      (collision ≠ 0 ↔ ∃ i, i < 4 ∧
        ((HEIGHT : Int) ≤ cell_row data i y + 1 ∨
          occupied map (cell_row data i y + 1) (cell_col data i x))) := by
  have hib : ∀ i, i < 4 → 0 ≤ calc_piece_index data i x y + (WIDTH : Int) := by
    intro i hi
    rw [calc_piece_index_eq]
    have h1 := hcols i hi
    have h2 := hrows i hi
    simp only [WIDTH] at h1 ⊢
    omega
  obtain ⟨c, hc, -, hiff⟩ := check_collision_some map hmap.1 data x y hib
  refine ⟨c, hc, ?_⟩
  rw [hiff]
  constructor
  · rintro ⟨i, hi, hh⟩
    rw [calc_piece_index_eq] at hh
    exact ⟨i, hi, (hits_iff map hmap _ _ (hcols i hi) (hrows i hi)).1 hh⟩
  · rintro ⟨i, hi, hh⟩
    refine ⟨i, hi, ?_⟩
    rw [calc_piece_index_eq]
    exact (hits_iff map hmap _ _ (hcols i hi) (hrows i hi)).2 hh

set_option maxRecDepth 100000 in
theorem check_collision_iff_witness :
    board_wf board_one_cell ∧
    (∀ i, i < 4 → 0 ≤ cell_col [3, 2, 0, 3, 4, 5] i 0 ∧
      cell_col [3, 2, 0, 3, 4, 5] i 0 < (WIDTH : Int)) ∧
    (∀ i, i < 4 → 0 ≤ cell_row [3, 2, 0, 3, 4, 5] i 3 + 1) ∧
    ∃ collision, check_collision board_one_cell [3, 2, 0, 3, 4, 5] 0 3 = some collision ∧
      (collision ≠ 0 ↔ ∃ i, i < 4 ∧
        ((HEIGHT : Int) ≤ cell_row [3, 2, 0, 3, 4, 5] i 3 + 1 ∨
          occupied board_one_cell (cell_row [3, 2, 0, 3, 4, 5] i 3 + 1)
            (cell_col [3, 2, 0, 3, 4, 5] i 0))) :=
  ⟨by decide, by decide, by decide,
    check_collision_iff board_one_cell (by decide) [3, 2, 0, 3, 4, 5] 0 3 (by decide) (by decide)⟩

theorem tdiv_tmod_bounds (w h k : Int) (hw : 1 ≤ w) (hk0 : 0 ≤ k) (hk : k < w * h) :
    0 ≤ Int.tdiv k w ∧ Int.tdiv k w < h ∧ 0 ≤ Int.tmod k w ∧ Int.tmod k w < w := by
  rw [Int.tdiv_eq_ediv hk0 (by omega), Int.tmod_eq_emod hk0 (by omega)]
  refine ⟨Int.ediv_nonneg hk0 (by omega), ?_, Int.emod_nonneg _ (by omega),
    Int.emod_lt_of_pos _ (by omega)⟩
  exact Int.ediv_lt_of_lt_mul (by omega) (by rw [mul_comm]; exact hk)

/-- In a well-formed shape every cell has its local row in `0 .. h-1` and its
local column in `0 .. w-1`. -/
theorem wf_local_bounds (data : List Int) (hwf : wf_shape data) (i : Nat) (hi : i < 4) :
    0 ≤ cell_row data i 0 ∧ cell_row data i 0 < data.getD 1 0 ∧
    0 ≤ cell_col data i 0 ∧ cell_col data i 0 < data.getD 0 0 := by
  unfold wf_shape at hwf
  split at hwf
  · rename_i w h a b c d
    obtain ⟨hw, hh, hcells, -⟩ := hwf
    unfold cell_row cell_col
    simp only [add_zero]
    have : i = 0 ∨ i = 1 ∨ i = 2 ∨ i = 3 := by omega
    rcases this with e | e | e | e <;> subst e
    · exact tdiv_tmod_bounds w h a hw (hcells a (by simp)).1 (hcells a (by simp)).2
    · exact tdiv_tmod_bounds w h b hw (hcells b (by simp)).1 (hcells b (by simp)).2
    · exact tdiv_tmod_bounds w h c hw (hcells c (by simp)).1 (hcells c (by simp)).2
    · exact tdiv_tmod_bounds w h d hw (hcells d (by simp)).1 (hcells d (by simp)).2
  · exact hwf.elim

theorem cell_row_add (data : List Int) (i : Nat) (y : Int) :
    cell_row data i y = cell_row data i 0 + y := by
  unfold cell_row; ring

theorem cell_col_add (data : List Int) (i : Nat) (x : Int) :
    cell_col data i x = cell_col data i 0 + x := by
  unfold cell_col; ring

/-- C4: for all boards (whatever their cells hold), every catalog shape
after any number of rotations and every origin with `origin_x ≥ 0`: if one of
the four cells, moved down one row, would be in row `HEIGHT` or beyond
(`row + 1 ≥ HEIGHT`), the collision check is defined and reports a
collision. -/
theorem check_collision_bottom (map : List Int) (hlen : map.length = WIDTH * HEIGHT)
    (k : Nat) (hk : k < 7) (n : Nat) (buf data buf2 : List Int) (hbuf : buf.length = 6)
    (hdata : rotate_times n (pieces.getD k []) buf = some (data, buf2)) (x y : Int)
    (hx : 0 ≤ x) (hbottom : ∃ i, i < 4 ∧ (HEIGHT : Int) ≤ cell_row data i y + 1) :
    check_collision map data x y = some 1 := by
  obtain ⟨hcw, hc0, hc1⟩ := catalog_wf ⟨k, hk⟩
  obtain ⟨r, b, hr, hwf, -, -, hdim⟩ :=
    wf_shape_rotate_times (pieces.getD k []) buf hcw hbuf 4 hc0 hc1 n
  rw [hdata] at hr
  have hrd : data = r := by
    have := Option.some.inj hr
    exact congrArg Prod.fst this
  subst hrd
  obtain ⟨i, hi, hrow⟩ := hbottom
  have hbi := wf_local_bounds data hwf i hi
  rw [cell_row_add] at hrow
  have hib : ∀ j, j < 4 → 0 ≤ calc_piece_index data j x y + (WIDTH : Int) := by
    intro j hj
    have hbj := wf_local_bounds data hwf j hj
    rw [calc_piece_index_eq, cell_row_add, cell_col_add]
    simp only [WIDTH, HEIGHT] at hrow ⊢
    push_cast at hrow ⊢
    omega
  obtain ⟨c, hc, h01, hiff⟩ := check_collision_some map hlen data x y hib
  have hne : c ≠ 0 := by
    rw [hiff]
    refine ⟨i, hi, Or.inl ?_⟩
    rw [calc_piece_index_eq, cell_row_add, cell_col_add]
    simp only [WIDTH, HEIGHT] at hrow ⊢
    push_cast at hrow ⊢
    omega
  rw [hc]
  rcases h01 with h0 | h1
  · exact absurd h0 hne
  · rw [h1]

set_option maxRecDepth 100000 in
theorem check_collision_bottom_witness :
    board_one_cell.length = WIDTH * HEIGHT ∧ (5 : Nat) < 7 ∧
    ([0, 0, 0, 0, 0, 0] : List Int).length = 6 ∧
    rotate_times 1 (pieces.getD 5 []) [0, 0, 0, 0, 0, 0] =
      some ([2, 3, 1, 2, 3, 5], [2, 3, 1, 2, 3, 5]) ∧
    (0 : Int) ≤ 4 ∧ (∃ i, i < 4 ∧ (HEIGHT : Int) ≤ cell_row [2, 3, 1, 2, 3, 5] i 7 + 1) ∧
    check_collision board_one_cell [2, 3, 1, 2, 3, 5] 4 7 = some 1 :=
  ⟨by decide, by decide, rfl, by decide, by decide, by decide,
    check_collision_bottom board_one_cell (by decide) 5 (by decide) 1 [0, 0, 0, 0, 0, 0]
      [2, 3, 1, 2, 3, 5] [2, 3, 1, 2, 3, 5] rfl (by decide) 4 7 (by decide) (by decide)⟩

/-! ## Line clearing -/

theorem row_has_empty_tile_loop (map : List Int) (y : Nat) :
    ∀ n : Nat,
      (for_range n (fun x (empty_tile : Int) =>
        if map.getD (y * WIDTH + x) 0 = 0 then 1 else empty_tile) 0 = 0 ∨
       for_range n (fun x (empty_tile : Int) =>
        if map.getD (y * WIDTH + x) 0 = 0 then 1 else empty_tile) 0 = 1) ∧
      (for_range n (fun x (empty_tile : Int) =>
        if map.getD (y * WIDTH + x) 0 = 0 then 1 else empty_tile) 0 = 0 ↔
        ∀ x, x < n → map.getD (y * WIDTH + x) 0 ≠ 0) := by
  intro n
  induction n with
  | zero => simp [for_range]
  | succ n ih =>
    rw [for_range_succ]
    by_cases h0 : map.getD (y * WIDTH + n) 0 = 0
    · rw [if_pos h0]
      refine ⟨Or.inr rfl, ?_⟩
      constructor
      · intro h; exact absurd h (by decide)
      · intro h; exact absurd h0 (h n (by omega))
    · rw [if_neg h0]
      refine ⟨ih.1, ?_⟩
      rw [ih.2]
      constructor
      · intro h x hx
        by_cases hxn : x = n
        · subst hxn; exact h0
        · exact h x (by omega)
      · intro h x hx
        exact h x (by omega)

theorem row_has_empty_tile_iff (map : List Int) (y : Nat) :
    row_has_empty_tile map y = 0 ↔ full_row map y :=
  (row_has_empty_tile_loop map y WIDTH).2

theorem clear_row_loop (map : List Int) (y : Nat) :
    ∀ n : Nat,
      (for_range n (fun x (m : List Int) => m.set (y * WIDTH + x) 0) map).length = map.length ∧
      ∀ j, (for_range n (fun x (m : List Int) => m.set (y * WIDTH + x) 0) map).getD j 0 =
        if y * WIDTH ≤ j ∧ j < y * WIDTH + n then 0 else map.getD j 0 := by
  intro n
  induction n with
  | zero =>
    refine ⟨rfl, ?_⟩
    intro j
    rw [if_neg (by omega)]
    rfl
  | succ n ih =>
    rw [for_range_succ]
    refine ⟨by rw [List.length_set]; exact ih.1, ?_⟩
    intro j
    rw [getD_set, ih.2 j]
    by_cases hj : y * WIDTH + n = j
    · subst hj
      rw [ih.1, if_neg (show ¬ (y * WIDTH ≤ y * WIDTH + n ∧ y * WIDTH + n < y * WIDTH + n) by omega),
        if_pos (show y * WIDTH ≤ y * WIDTH + n ∧ y * WIDTH + n < y * WIDTH + (n + 1) by omega)]
      by_cases hl : y * WIDTH + n < map.length
      · rw [if_pos ⟨rfl, hl⟩]
      · rw [if_neg (by tauto), List.getD_eq_getElem?_getD, List.getElem?_eq_none (by omega)]
        rfl
    · by_cases hr : y * WIDTH ≤ j ∧ j < y * WIDTH + n
      · rw [if_neg (by tauto), if_pos hr, if_pos ⟨hr.1, by omega⟩]
      · rw [if_neg (by tauto), if_neg hr, if_neg (by omega)]

theorem clear_row_spec (map : List Int) (y : Nat) :
    (clear_row map y).length = map.length ∧
    ∀ j, (clear_row map y).getD j 0 =
      if y * WIDTH ≤ j ∧ j < y * WIDTH + WIDTH then 0 else map.getD j 0 :=
  clear_row_loop map y WIDTH

theorem copy_row_loop (map : List Int) (y2 : Nat) :
    ∀ n : Nat, n ≤ WIDTH →
      (for_range n (fun x (m : List Int) =>
        m.set (y2 * WIDTH + x + WIDTH) (m.getD (y2 * WIDTH + x) 0)) map).length = map.length ∧
      ∀ j, (for_range n (fun x (m : List Int) =>
        m.set (y2 * WIDTH + x + WIDTH) (m.getD (y2 * WIDTH + x) 0)) map).getD j 0 =
        if (y2 + 1) * WIDTH ≤ j ∧ j < (y2 + 1) * WIDTH + n ∧ j < map.length then
          map.getD (j - WIDTH) 0
        else map.getD j 0 := by
  intro n
  induction n with
  | zero =>
    intro _
    refine ⟨rfl, ?_⟩
    intro j
    rw [if_neg (by omega)]
    rfl
  | succ n ih =>
    intro hn
    obtain ⟨hlen, hget⟩ := ih (by omega)
    rw [for_range_succ]
    refine ⟨by rw [List.length_set]; exact hlen, ?_⟩
    intro j
    rw [getD_set, hget j, hget (y2 * WIDTH + n), hlen]
    have hsrc : ¬ ((y2 + 1) * WIDTH ≤ y2 * WIDTH + n ∧
        y2 * WIDTH + n < (y2 + 1) * WIDTH + n ∧ y2 * WIDTH + n < map.length) := by
      simp only [WIDTH] at hn ⊢
      omega
    rw [if_neg hsrc]
    simp only [WIDTH] at hn ⊢
    by_cases hj : y2 * 10 + n + 10 = j
    · subst hj
      by_cases hl : y2 * 10 + n + 10 < map.length
      · rw [if_pos ⟨rfl, hl⟩, if_pos ⟨by omega, by omega, hl⟩]
        congr 1
      · rw [if_neg (by tauto), if_neg (by omega), if_neg (by tauto)]
    · rw [if_neg (by tauto)]
      by_cases hr : (y2 + 1) * 10 ≤ j ∧ j < (y2 + 1) * 10 + n ∧ j < map.length
      · rw [if_pos hr, if_pos ⟨hr.1, by omega, hr.2.2⟩]
      · rw [if_neg hr, if_neg (by omega)]

theorem copy_row_down_spec (map : List Int) (y2 : Nat) :
    (copy_row_down map y2).length = map.length ∧
    ∀ j, (copy_row_down map y2).getD j 0 =
      if (y2 + 1) * WIDTH ≤ j ∧ j < (y2 + 1) * WIDTH + WIDTH ∧ j < map.length then
        map.getD (j - WIDTH) 0
      else map.getD j 0 :=
  copy_row_loop map y2 WIDTH (le_refl _)

theorem shift_rows_down_spec :
    ∀ (y : Nat) (map : List Int), y < HEIGHT → map.length = WIDTH * HEIGHT →
      (shift_rows_down map y).length = WIDTH * HEIGHT ∧
      ∀ j, (shift_rows_down map y).getD j 0 =
        if WIDTH ≤ j ∧ j < (y + 1) * WIDTH then map.getD (j - WIDTH) 0 else map.getD j 0 := by
  intro y
  induction y with
  | zero =>
    intro map _ hlen
    refine ⟨hlen, ?_⟩
    intro j
    rw [if_neg (by simp only [WIDTH]; omega)]
    rfl
  | succ y ih =>
    intro map hy hlen
    obtain ⟨hclen, hcget⟩ := copy_row_down_spec map y
    obtain ⟨hlen2, hget2⟩ := ih (copy_row_down map y) (by omega) (by rw [hclen]; exact hlen)
    have e : shift_rows_down map (y + 1) = shift_rows_down (copy_row_down map y) y := rfl
    rw [e]
    refine ⟨hlen2, ?_⟩
    intro j
    rw [hget2 j, hcget j, hcget (j - WIDTH), hlen]
    simp only [WIDTH, HEIGHT] at hy ⊢
    by_cases h1 : 10 ≤ j ∧ j < (y + 1) * 10
    · rw [if_pos h1, if_neg (by omega), if_pos (by omega)]
    · rw [if_neg h1]
      by_cases h2 : (y + 1) * 10 ≤ j ∧ j < (y + 1) * 10 + 10 ∧ j < 10 * 10
      · rw [if_pos h2, if_pos (by omega)]
      · rw [if_neg h2, if_neg (by omega)]

/-- What clearing the full row `y` does: rows `1 .. y` receive the row above
them, the rows below `y` stay, and row 0 stays too unless `y = 0`, in which
case it is zeroed. -/
theorem clear_line_spec (map : List Int) (y : Nat) (hy : y < HEIGHT)
    (hlen : map.length = WIDTH * HEIGHT) :
    (clear_line map y).length = WIDTH * HEIGHT ∧
    ∀ j, (clear_line map y).getD j 0 =
      if WIDTH ≤ j ∧ j < (y + 1) * WIDTH then map.getD (j - WIDTH) 0
      else if y = 0 ∧ j < WIDTH then 0 else map.getD j 0 := by
  obtain ⟨hclen, hcget⟩ := clear_row_spec map y
  obtain ⟨hslen, hsget⟩ := shift_rows_down_spec y (clear_row map y) hy (by rw [hclen]; exact hlen)
  unfold clear_line
  refine ⟨hslen, ?_⟩
  intro j
  rw [hsget j, hcget j, hcget (j - WIDTH)]
  simp only [WIDTH, HEIGHT] at hy ⊢
  by_cases h1 : 10 ≤ j ∧ j < (y + 1) * 10
  · rw [if_pos h1, if_pos h1, if_neg (by omega)]
  · rw [if_neg h1, if_neg h1]
    by_cases h2 : y = 0 ∧ j < 10
    · rw [if_pos h2, if_pos (by omega)]
    · rw [if_neg h2, if_neg (by omega)]

theorem handle_complete_lines_eq (st : List Int × Int) :
    handle_complete_lines st = for_range HEIGHT line_step st := rfl

theorem full_row_congr (m1 m2 : List Int) (y : Nat)
    (h : ∀ j, y * WIDTH ≤ j → m1.getD j 0 = m2.getD j 0) :
    full_row m1 y ↔ full_row m2 y := by
  unfold full_row cell
  constructor
  · intro hf x hx
    rw [← h _ (Nat.le_add_right _ _)]
    exact hf x hx
  · intro hf x hx
    rw [h _ (Nat.le_add_right _ _)]
    exact hf x hx

theorem count_full_rows_succ (map : List Int) (n : Nat) :
    count_full_rows map (n + 1) =
      if full_row map n then count_full_rows map n + 1 else count_full_rows map n := rfl

/-- Invariant of the pass: after the rows `0 .. n-1` have been visited the
board still has its size, the rows from `n` on are untouched, and the score
has grown by the number of rows among `0 .. n-1` that were full at the start. -/
theorem pass_invariant (map : List Int) (score : Int) (hlen : map.length = WIDTH * HEIGHT) :
    ∀ n : Nat, n ≤ HEIGHT →
      (for_range n line_step (map, score)).1.length = WIDTH * HEIGHT ∧
      (∀ j, n * WIDTH ≤ j → (for_range n line_step (map, score)).1.getD j 0 = map.getD j 0) ∧
      (for_range n line_step (map, score)).2 = score + (count_full_rows map n : Int) := by
  intro n
  induction n with
  | zero =>
    intro _
    exact ⟨hlen, fun _ _ => rfl, by simp [for_range, count_full_rows]⟩
  | succ n ih =>
    intro hn
    obtain ⟨hl, hrest, hscore⟩ := ih (by omega)
    rw [for_range_succ]
    generalize for_range n line_step (map, score) = st at hl hrest hscore ⊢
    have hfull : row_has_empty_tile st.1 n = 0 ↔ full_row map n := by
      rw [row_has_empty_tile_iff]
      exact full_row_congr _ _ n hrest
    rw [count_full_rows_succ]
    unfold line_step
    by_cases hf : full_row map n
    · rw [if_pos (hfull.2 hf), if_pos hf]
      obtain ⟨hcl, hcg⟩ := clear_line_spec st.1 n (by omega) hl
      unfold clear_line at hcl hcg
      refine ⟨hcl, ?_, ?_⟩
      · intro j hj
        show (shift_rows_down (clear_row st.1 n) n).getD j 0 = _
        rw [hcg j]
        simp only [WIDTH] at hj ⊢
        rw [if_neg (by omega), if_neg (by omega)]
        exact hrest j (by simp only [WIDTH]; omega)
      · show st.2 + 1 = _
        rw [hscore]
        push_cast
        ring
    · rw [if_neg (fun h => hf (hfull.1 h)), if_neg hf]
      refine ⟨hl, ?_, hscore⟩
      intro j hj
      exact hrest j (by simp only [WIDTH] at hj ⊢; omega)

theorem pass_no_full_row (map : List Int) (score : Int) :
    ∀ n : Nat, (∀ y, y < n → ¬ full_row map y) →
      for_range n line_step (map, score) = (map, score) := by
  intro n
  induction n with
  | zero => intro _; rfl
  | succ n ih =>
    intro hno
    rw [for_range_succ, ih (fun y hy => hno y (by omega))]
    unfold line_step
    rw [if_neg]
    rw [row_has_empty_tile_iff]
    exact hno n (by omega)

theorem pass_single_full_row (map : List Int) (score : Int)
    (hlen : map.length = WIDTH * HEIGHT) (r : Nat) (hr : r < HEIGHT)
    (hfull : full_row map r) (hothers : ∀ y, y < HEIGHT → y ≠ r → ¬ full_row map y) :
    ∀ d : Nat, r + 1 + d ≤ HEIGHT →
      for_range (r + 1 + d) line_step (map, score) = (clear_line map r, score + 1) := by
  intro d
  induction d with
  | zero =>
    intro _
    rw [Nat.add_zero, for_range_succ,
      pass_no_full_row map score r (fun y hy => hothers y (by omega) (by omega))]
    unfold line_step
    rw [if_pos ((row_has_empty_tile_iff map r).2 hfull)]
    rfl
  | succ d ih =>
    intro hd
    rw [← Nat.add_assoc, for_range_succ, ih (by omega)]
    unfold line_step
    rw [if_neg]
    rw [row_has_empty_tile_iff]
    intro hf
    apply hothers (r + 1 + d) (by omega) (by omega)
    refine (full_row_congr _ _ _ ?_).1 hf
    intro j hj
    rw [(clear_line_spec map r hr hlen).2 j]
    simp only [WIDTH] at hj ⊢
    rw [if_neg (by omega), if_neg (by omega)]

/-- C5: for every board in which row `r` is fully occupied and no other row
is, after the line-clear pass every row above `r` has moved down by exactly
one (new row `k + 1` equals old row `k` for every `k < r`) and every row below
`r` is unchanged. -/
theorem line_clear_single_row (map : List Int) (score : Int)
    (hlen : map.length = WIDTH * HEIGHT) (r : Nat) (hr : r < HEIGHT)
    (hfull : full_row map r) (hothers : ∀ y, y < HEIGHT → y ≠ r → ¬ full_row map y) :
    (∀ k x, k < r → x < WIDTH →
      cell (handle_complete_lines (map, score)).1 (k + 1) x = cell map k x) ∧
    (∀ k x, r < k → k < HEIGHT → x < WIDTH →
      cell (handle_complete_lines (map, score)).1 k x = cell map k x) := by
  have hpass : handle_complete_lines (map, score) = (clear_line map r, score + 1) := by
    rw [handle_complete_lines_eq]
    have := pass_single_full_row map score hlen r hr hfull hothers (HEIGHT - (r + 1)) (by omega)
    rw [show r + 1 + (HEIGHT - (r + 1)) = HEIGHT by omega] at this
    exact this
  rw [hpass]
  obtain ⟨-, hget⟩ := clear_line_spec map r hr hlen
  unfold cell
  constructor
  · intro k x hk hx
    rw [hget]
    have hcond : WIDTH ≤ (k + 1) * WIDTH + x ∧ (k + 1) * WIDTH + x < (r + 1) * WIDTH := by
      simp only [WIDTH] at hx ⊢
      omega
    have hidx : (k + 1) * WIDTH + x - WIDTH = k * WIDTH + x := by
      simp only [WIDTH]
      omega
    rw [if_pos hcond, hidx]
  · intro k x hk hkH hx
    rw [hget]
    have hc1 : ¬ (WIDTH ≤ k * WIDTH + x ∧ k * WIDTH + x < (r + 1) * WIDTH) := by
      simp only [WIDTH] at hx ⊢
      omega
    have hc2 : ¬ (r = 0 ∧ k * WIDTH + x < WIDTH) := by
      simp only [WIDTH] at hx ⊢
      omega
    rw [if_neg hc1, if_neg hc2]

set_option maxRecDepth 100000 in
theorem line_clear_single_row_witness :
    board_bottom_full.length = WIDTH * HEIGHT ∧ 9 < HEIGHT ∧ full_row board_bottom_full 9 ∧
    (∀ y, y < HEIGHT → y ≠ 9 → ¬ full_row board_bottom_full y) ∧
    (∀ k x, k < 9 → x < WIDTH →
      cell (handle_complete_lines (board_bottom_full, 0)).1 (k + 1) x =
        cell board_bottom_full k x) ∧
    (∀ k x, 9 < k → k < HEIGHT → x < WIDTH →
      cell (handle_complete_lines (board_bottom_full, 0)).1 k x = cell board_bottom_full k x) :=
  ⟨by decide, by decide, by decide!, by decide!,
    line_clear_single_row board_bottom_full 0 (by decide) 9 (by decide) (by decide!)
      (by decide!)⟩

set_option maxRecDepth 100000 in
/-- C6, the code at a failing input: on `board_column_and_bottom` row 9 is
fully occupied, yet after the line-clear pass the cells of row 0 in columns 0
and 1 are still occupied: row 0 is copied down to row 1 and is not zeroed. -/
theorem line_clear_row0_not_emptied :
    board_wf board_column_and_bottom ∧ full_row board_column_and_bottom 9 ∧
    cell (handle_complete_lines (board_column_and_bottom, 0)).1 0 0 = 1 ∧
    cell (handle_complete_lines (board_column_and_bottom, 0)).1 0 1 = 1 ∧
    cell (handle_complete_lines (board_column_and_bottom, 0)).1 1 0 = 1 ∧
    cell (handle_complete_lines (board_column_and_bottom, 0)).1 1 1 = 1 := by
  decide

/-- C7: for every board, the number of rows cleared by one line-clear pass,
which is the amount the pass adds to `score`, equals the number of rows that
are fully occupied when the pass begins; and a tick adds exactly that number
(counted on the board as the lock step left it) to the score. -/
theorem cleared_count_eq_full_rows (map : List Int) (score : Int)
    (hlen : map.length = WIDTH * HEIGHT) :
    (handle_complete_lines (map, score)).2 = score + (count_full_rows map HEIGHT : Int) ∧
    ∀ (s : State) (inp : Input) (r1 r2 : Nat) (s2 : State) (data : List Int) (c : Int)
      (s3 : State),
      tick_check s inp r1 = Step.next (s2, data, c) → lock s2 data c r2 = some s3 →
      s3.map = map → s3.score = score →
      ∃ s4, tick s inp r1 r2 = Step.next s4 ∧
        s4.score = score + (count_full_rows map HEIGHT : Int) := by
  have h1 : (handle_complete_lines (map, score)).2 = score + (count_full_rows map HEIGHT : Int) := by
    rw [handle_complete_lines_eq]
    exact (pass_invariant map score hlen HEIGHT (le_refl _)).2.2
  refine ⟨h1, ?_⟩
  intro s inp r1 r2 s2 data c s3 hcheck hlock hmap hscore
  refine ⟨{ s3 with
    map := (handle_complete_lines (s3.map, s3.score)).1
    score := (handle_complete_lines (s3.map, s3.score)).2 }, ?_, ?_⟩
  · unfold tick
    rw [hcheck]
    simp only [hlock]
  · simp only [hmap, hscore]
    exact h1

set_option maxRecDepth 100000 in
theorem cleared_count_eq_full_rows_witness :
    board_bottom_full.length = WIDTH * HEIGHT ∧
    count_full_rows board_bottom_full HEIGHT = 1 ∧
    ((handle_complete_lines (board_bottom_full, 4)).2 =
        4 + (count_full_rows board_bottom_full HEIGHT : Int) ∧
      ∀ (s : State) (inp : Input) (r1 r2 : Nat) (s2 : State) (data : List Int) (c : Int)
        (s3 : State),
        tick_check s inp r1 = Step.next (s2, data, c) → lock s2 data c r2 = some s3 →
        s3.map = board_bottom_full → s3.score = 4 →
        ∃ s4, tick s inp r1 r2 = Step.next s4 ∧
          s4.score = 4 + (count_full_rows board_bottom_full HEIGHT : Int)) :=
  ⟨by decide, by decide, cleared_count_eq_full_rows board_bottom_full 4 (by decide)⟩

/-! ## Lock and the whole tick -/

theorem tick_check_next (s : State) (inp : Input) (r : Nat) (s2 : State) (data : List Int)
    (c : Int) (hcheck : tick_check s inp r = Step.next (s2, data, c)) :
    ∃ buf s1, current_piece_data s = some (data, buf) ∧
      handle_input { s with rotated_map := buf } (data.getD 0 0) inp r = some s1 ∧
      s2 = gravity s1 ∧ check_collision s2.map data s2.piece_x s2.piece_y = some c := by
  unfold tick_check at hcheck
  split at hcheck
  · exact absurd hcheck (by simp)
  · split at hcheck
    · exact absurd hcheck (by simp)
    · rename_i pd buf hpd
      dsimp only at hcheck
      split at hcheck
      · exact absurd hcheck (by simp)
      · rename_i s1 hs1
        split at hcheck
        · exact absurd hcheck (by simp)
        · rename_i c1 hc1
          simp only [Step.next.injEq, Prod.mk.injEq] at hcheck
          obtain ⟨e1, e2, e3⟩ := hcheck
          subst e2
          subst e3
          refine ⟨buf, s1, hpd, hs1, e1.symm, ?_⟩
          rw [← e1]
          exact hc1

theorem write_map_some (m : List Int) (i v : Int) (h : 0 ≤ i ∧ i < (m.length : Int)) :
    write_map m i v = some (m.set i.toNat v) := by
  unfold write_map
  rw [if_pos h]

/-- When the four cell indices lie inside the board the merge is defined: the
four cells are set to 1 and every other cell is left as it was. -/
theorem merge_piece_some (map data : List Int) (x y : Int)
    (hidx : ∀ k, k ∈ piece_cells data x y → 0 ≤ k ∧ k < (map.length : Int)) :
    ∃ m, merge_piece map data x y = some m ∧ m.length = map.length ∧
      ∀ j : Nat, m.getD j 0 = if (j : Int) ∈ piece_cells data x y then 1 else map.getD j 0 := by
  have h0 := hidx (calc_piece_index data 0 x y) (by simp [piece_cells])
  have h1 := hidx (calc_piece_index data 1 x y) (by simp [piece_cells])
  have h2 := hidx (calc_piece_index data 2 x y) (by simp [piece_cells])
  have h3 := hidx (calc_piece_index data 3 x y) (by simp [piece_cells])
  unfold merge_piece
  simp only [for_range, Option.some_bind]
  rw [write_map_some _ _ _ h0]
  simp only [Option.some_bind]
  rw [write_map_some _ _ _ (by rw [List.length_set]; exact h1)]
  simp only [Option.some_bind]
  rw [write_map_some _ _ _ (by rw [List.length_set, List.length_set]; exact h2)]
  simp only [Option.some_bind]
  rw [write_map_some _ _ _
    (by rw [List.length_set, List.length_set, List.length_set]; exact h3)]
  refine ⟨_, rfl, by simp only [List.length_set], ?_⟩
  intro j
  simp only [getD_set, List.length_set, piece_cells, List.mem_cons, List.mem_singleton,
    List.not_mem_nil, or_false]
  generalize calc_piece_index data 0 x y = i0 at h0 ⊢
  generalize calc_piece_index data 1 x y = i1 at h1 ⊢
  generalize calc_piece_index data 2 x y = i2 at h2 ⊢
  generalize calc_piece_index data 3 x y = i3 at h3 ⊢
  by_cases e3 : i3.toNat = j
  · rw [if_pos ⟨e3, by omega⟩, if_pos (by omega)]
  · rw [if_neg (by tauto)]
    by_cases e2 : i2.toNat = j
    · rw [if_pos ⟨e2, by omega⟩, if_pos (by omega)]
    · rw [if_neg (by tauto)]
      by_cases e1 : i1.toNat = j
      · rw [if_pos ⟨e1, by omega⟩, if_pos (by omega)]
      · rw [if_neg (by tauto)]
        by_cases e0 : i0.toNat = j
        · rw [if_pos ⟨e0, by omega⟩, if_pos (by omega)]
        · rw [if_neg (by tauto), if_neg (by omega)]

theorem random_number_range (r : Nat) :
    0 ≤ random_number r 0 6 ∧ random_number r 0 6 ≤ 6 := by
  unfold random_number
  have e : ((6 : Int) - 0 + 1) = ((7 : Nat) : Int) := by norm_num
  rw [e, ← Int.ofNat_tmod]
  have := Nat.mod_lt r (show 0 < 7 by omega)
  omega

/-- The lock block when a collision was detected and the four cells lie
inside the board. -/
theorem lock_collision (s2 : State) (data : List Int) (c : Int) (r : Nat) (hc : c ≠ 0)
    (hidx : ∀ k, k ∈ piece_cells data s2.piece_x s2.piece_y →
      0 ≤ k ∧ k < (s2.map.length : Int)) :
    ∃ m, merge_piece s2.map data s2.piece_x s2.piece_y = some m ∧
      (∀ j : Nat, m.getD j 0 =
        if (j : Int) ∈ piece_cells data s2.piece_x s2.piece_y then 1 else s2.map.getD j 0) ∧
      lock s2 data c r = some { s2 with
        game_over := if s2.piece_y < 0 then 1 else s2.game_over
        map := m
        piece_index := random_number r 0 6
        piece_x := 0
        piece_y := -2 } := by
  obtain ⟨m, hm, -, hget⟩ := merge_piece_some s2.map data s2.piece_x s2.piece_y hidx
  refine ⟨m, hm, hget, ?_⟩
  unfold lock
  rw [if_pos hc]
  simp only [hm]

theorem lock_no_collision (s2 : State) (data : List Int) (r : Nat) :
    lock s2 data 0 r = some s2 := by
  unfold lock
  rw [if_neg (by simp)]

theorem tick_of_lock (s : State) (inp : Input) (r1 r2 : Nat) (s2 s3 : State)
    (data : List Int) (c : Int) (hcheck : tick_check s inp r1 = Step.next (s2, data, c))
    (hlock : lock s2 data c r2 = some s3) :
    tick s inp r1 r2 = Step.next { s3 with
      map := (handle_complete_lines (s3.map, s3.score)).1
      score := (handle_complete_lines (s3.map, s3.score)).2 } := by
  unfold tick
  rw [hcheck]
  simp only [hlock]

set_option maxRecDepth 100000 in
/-- C8, counterexample: in `state_over_edge` the tick detects a collision
while `piece_y = -1 < 0` (the cell below the piece in row 1, column 8 is
occupied); the lock step sets `game_over` and also writes the piece into
the board: the cells 8 and 9 of row 0, empty before, are occupied after. -/
theorem lock_negative_origin_counterexample :
    tick_check state_over_edge no_key 0 =
      Step.next ({ state_over_edge with move_delay_count := 1 }, [3, 2, 2, 3, 4, 5], 1) ∧
    ({ state_over_edge with move_delay_count := 1 } : State).piece_y < 0 ∧
    state_over_edge.map.getD 8 0 = 0 ∧ state_over_edge.map.getD 9 0 = 0 ∧
    (lock { state_over_edge with move_delay_count := 1 } [3, 2, 2, 3, 4, 5] 1 0).map
      (fun s => (s.game_over, s.map.getD 8 0, s.map.getD 9 0)) = some (1, 1, 1) := by
  decide

/-- C8, amended: when a tick detects a collision while `origin_y < 0` and
the piece's four cell indices lie in `0 .. WIDTH*HEIGHT-1`, the lock step is
defined, sets `game_over`, and merges the piece all the same: the four cells
become 1 and every other board cell is left as it was; the tick then ends
with `game_over` set. -/
theorem lock_negative_origin (s : State) (inp : Input) (r1 r2 : Nat) (s2 : State)
    (data : List Int) (c : Int)
    (hcheck : tick_check s inp r1 = Step.next (s2, data, c)) (hc : c ≠ 0)
    (hy : s2.piece_y < 0) (hlen : s2.map.length = WIDTH * HEIGHT)
    (hidx : ∀ k, k ∈ piece_cells data s2.piece_x s2.piece_y →
      0 ≤ k ∧ k < (WIDTH : Int) * (HEIGHT : Int)) :
    ∃ s3, lock s2 data c r2 = some s3 ∧ s3.game_over = 1 ∧
      (∀ j : Nat, s3.map.getD j 0 =
        if (j : Int) ∈ piece_cells data s2.piece_x s2.piece_y then 1 else s2.map.getD j 0) ∧
      ∃ s4, tick s inp r1 r2 = Step.next s4 ∧ s4.game_over = 1 := by
  have hidx2 : ∀ k, k ∈ piece_cells data s2.piece_x s2.piece_y →
      0 ≤ k ∧ k < (s2.map.length : Int) := by
    intro k hk
    rw [hlen]
    push_cast
    exact hidx k hk
  obtain ⟨m, -, hget, hlock⟩ := lock_collision s2 data c r2 hc hidx2
  refine ⟨_, hlock, ?_, hget, _, tick_of_lock s inp r1 r2 s2 _ data c hcheck hlock, ?_⟩
  · show (if s2.piece_y < 0 then (1 : Int) else s2.game_over) = 1
    rw [if_pos hy]
  · show (if s2.piece_y < 0 then (1 : Int) else s2.game_over) = 1
    rw [if_pos hy]

set_option maxRecDepth 100000 in
theorem lock_negative_origin_witness :
    tick_check state_over_edge no_key 0 =
      Step.next ({ state_over_edge with move_delay_count := 1 }, [3, 2, 2, 3, 4, 5], 1) ∧
    (1 : Int) ≠ 0 ∧ ({ state_over_edge with move_delay_count := 1 } : State).piece_y < 0 ∧
    ({ state_over_edge with move_delay_count := 1 } : State).map.length = WIDTH * HEIGHT ∧
    (∀ k, k ∈ piece_cells [3, 2, 2, 3, 4, 5] 8 (-1) →
      0 ≤ k ∧ k < (WIDTH : Int) * (HEIGHT : Int)) ∧
    ∃ s3, lock { state_over_edge with move_delay_count := 1 } [3, 2, 2, 3, 4, 5] 1 7 = some s3 ∧
      s3.game_over = 1 ∧
      (∀ j : Nat, s3.map.getD j 0 =
        if (j : Int) ∈ piece_cells [3, 2, 2, 3, 4, 5] 8 (-1) then 1
        else state_over_edge.map.getD j 0) ∧
      ∃ s4, tick state_over_edge no_key 0 7 = Step.next s4 ∧ s4.game_over = 1 :=
  ⟨by decide, by decide, by decide, by decide, by decide,
    lock_negative_origin state_over_edge no_key 0 7 { state_over_edge with move_delay_count := 1 }
      [3, 2, 2, 3, 4, 5] 1 (by decide) (by decide) (by decide) (by decide) (by decide)⟩

set_option maxRecDepth 100000 in
/-- C9, counterexample: in `state_upright_on_floor` (rotation count 1) the
tick detects a collision with `piece_y = 6 ≥ 0`, the piece locks, and the new
active piece has rotation count 1, not 0. -/
theorem lock_keeps_rotation_counterexample :
    tick_check state_upright_on_floor no_key 0 =
      Step.next ({ state_upright_on_floor with
        move_delay_count := 1, rotated_map := [1, 4, 0, 1, 2, 3] }, [1, 4, 0, 1, 2, 3], 1) ∧
    (0 : Int) ≤ ({ state_upright_on_floor with
        move_delay_count := 1, rotated_map := [1, 4, 0, 1, 2, 3] } : State).piece_y ∧
    tick state_upright_on_floor no_key 0 5 =
      Step.next { map := (List.range 100).map (fun j => if j % 10 = 0 ∧ 60 ≤ j then 1 else 0)
                  piece_index := 5
                  piece_x := 0
                  piece_y := -2
                  move_delay_count := 1
                  rotation := 1
                  score := 0
                  game_over := 0
                  rotated_map := [1, 4, 0, 1, 2, 3] } := by
  decide

/-- C9, amended: whenever a piece locks (collision detected with
`origin_y ≥ 0`, the four cells inside the board), the tick is defined and the
new active piece has a shape index in `0 .. 6`, `origin_x = 0` and
`origin_y = -2`; its rotation count is not reset: it is the rotation count
the state had after the input of this tick. The tick leaves `game_over` as
it was. -/
theorem lock_spawns_piece (s : State) (inp : Input) (r1 r2 : Nat) (s2 : State)
    (data : List Int) (c : Int)
    (hcheck : tick_check s inp r1 = Step.next (s2, data, c)) (hc : c ≠ 0)
    (hy : 0 ≤ s2.piece_y) (hlen : s2.map.length = WIDTH * HEIGHT)
    (hidx : ∀ k, k ∈ piece_cells data s2.piece_x s2.piece_y →
      0 ≤ k ∧ k < (WIDTH : Int) * (HEIGHT : Int)) :
    ∃ s4, tick s inp r1 r2 = Step.next s4 ∧
      0 ≤ s4.piece_index ∧ s4.piece_index ≤ 6 ∧ s4.piece_x = 0 ∧ s4.piece_y = -2 ∧
      s4.rotation = s2.rotation ∧ s4.game_over = s2.game_over := by
  have hidx2 : ∀ k, k ∈ piece_cells data s2.piece_x s2.piece_y →
      0 ≤ k ∧ k < (s2.map.length : Int) := by
    intro k hk
    rw [hlen]
    push_cast
    exact hidx k hk
  obtain ⟨m, -, -, hlock⟩ := lock_collision s2 data c r2 hc hidx2
  refine ⟨_, tick_of_lock s inp r1 r2 s2 _ data c hcheck hlock,
    (random_number_range r2).1, (random_number_range r2).2, rfl, rfl, rfl, ?_⟩
  show (if s2.piece_y < 0 then (1 : Int) else s2.game_over) = s2.game_over
  rw [if_neg (by omega)]

set_option maxRecDepth 100000 in
theorem lock_spawns_piece_witness :
    tick_check state_upright_on_floor key_up 0 =
      Step.next ({ state_upright_on_floor with
        move_delay_count := 1, rotation := 2, rotated_map := [1, 4, 0, 1, 2, 3] },
        [1, 4, 0, 1, 2, 3], 1) ∧
    (1 : Int) ≠ 0 ∧ (0 : Int) ≤ 6 ∧ state_upright_on_floor.map.length = WIDTH * HEIGHT ∧
    (∀ k, k ∈ piece_cells [1, 4, 0, 1, 2, 3] 0 6 →
      0 ≤ k ∧ k < (WIDTH : Int) * (HEIGHT : Int)) ∧
    ∃ s4, tick state_upright_on_floor key_up 0 12 = Step.next s4 ∧
      0 ≤ s4.piece_index ∧ s4.piece_index ≤ 6 ∧ s4.piece_x = 0 ∧ s4.piece_y = -2 ∧
      s4.rotation = 2 ∧ s4.game_over = 0 :=
  ⟨by decide, by decide, by decide, by decide, by decide,
    lock_spawns_piece state_upright_on_floor key_up 0 12
      { state_upright_on_floor with
        move_delay_count := 1, rotation := 2, rotated_map := [1, 4, 0, 1, 2, 3] }
      [1, 4, 0, 1, 2, 3] 1 (by decide) (by decide) (by decide) (by decide) (by decide)⟩

/-! ## Inversion of `lock` and `tick` -/

theorem lock_eq_some (s2 s3 : State) (data : List Int) (c : Int) (r : Nat)
    (h : lock s2 data c r = some s3) :
    (c = 0 ∧ s3 = s2) ∨
    (c ≠ 0 ∧ ∃ m, merge_piece s2.map data s2.piece_x s2.piece_y = some m ∧
      s3 = { s2 with
        game_over := if s2.piece_y < 0 then 1 else s2.game_over
        map := m
        piece_index := random_number r 0 6
        piece_x := 0
        piece_y := -2 }) := by
  unfold lock at h
  by_cases hc : c = 0
  · left
    rw [if_neg (by simpa using hc)] at h
    exact ⟨hc, (Option.some.inj h).symm⟩
  · right
    rw [if_pos hc] at h
    refine ⟨hc, ?_⟩
    dsimp only at h
    split at h
    · exact absurd h (by simp)
    · rename_i m hm
      exact ⟨m, hm, (Option.some.inj h).symm⟩

theorem tick_eq_next (s s4 : State) (inp : Input) (r1 r2 : Nat)
    (h : tick s inp r1 r2 = Step.next s4) :
    ∃ s2 data c s3, tick_check s inp r1 = Step.next (s2, data, c) ∧
      lock s2 data c r2 = some s3 ∧
      s4 = { s3 with
        map := (handle_complete_lines (s3.map, s3.score)).1
        score := (handle_complete_lines (s3.map, s3.score)).2 } := by
  unfold tick at h
  split at h
  · exact absurd h (by simp)
  · exact absurd h (by simp)
  · rename_i s2 data c hcheck
    split at h
    · exact absurd h (by simp)
    · rename_i s3 hlock
      refine ⟨s2, data, c, s3, hcheck, hlock, ?_⟩
      simp only [Step.next.injEq] at h
      exact h.symm

theorem run_nil (s : State) : run s [] = Step.next s := rfl

theorem run_cons_next (s s1 : State) (inp : Input) (r1 r2 : Nat)
    (rest : List (Input × Nat × Nat)) (h : tick s inp r1 r2 = Step.next s1) :
    run s ((inp, r1, r2) :: rest) = run s1 rest := by
  show (match tick s inp r1 r2 with
    | Step.next s1 => run s1 rest
    | Step.quit => Step.quit
    | Step.undefined => Step.undefined) = _
  rw [h]

/-- A run that ends in a state went through a first tick that ended in a
state. -/
theorem run_cons_eq_next (s s4 : State) (inp : Input) (r1 r2 : Nat)
    (rest : List (Input × Nat × Nat)) (h : run s ((inp, r1, r2) :: rest) = Step.next s4) :
    ∃ s1, tick s inp r1 r2 = Step.next s1 ∧ run s1 rest = Step.next s4 := by
  have e : run s ((inp, r1, r2) :: rest) = (match tick s inp r1 r2 with
    | Step.next s1 => run s1 rest
    | Step.quit => Step.quit
    | Step.undefined => Step.undefined) := rfl
  rw [e] at h
  split at h
  · rename_i s1 h1
    exact ⟨s1, h1, h⟩
  · exact absurd h (by simp)
  · exact absurd h (by simp)

/-! ## Game over -/

/-- C15: for every shape descriptor with width `w ≥ 1`, every cell slot `i`
(in particular `0 .. 3`) holding a local index `k ≥ 0`, and all integers `x`
and `y`,
`calc_piece_index` returns `(k / w + y) * WIDTH + (k % w + x)`, with
`WIDTH = 10`: local row and column are taken with the shape width, the
absolute index with the board width. -/
theorem calc_piece_index_formula (data : List Int) (i : Nat) (x y : Int)
    (hw : 1 ≤ data.getD 0 0) (hk : 0 ≤ data.getD (i + 2) 0) :
    calc_piece_index data i x y =
      (data.getD (i + 2) 0 / data.getD 0 0 + y) * (WIDTH : Int) +
        (data.getD (i + 2) 0 % data.getD 0 0 + x) ∧
    (WIDTH : Int) = 10 := by
  refine ⟨?_, rfl⟩
  rw [calc_piece_index_eq]
  unfold cell_row cell_col
  rw [Int.tdiv_eq_ediv hk (by omega), Int.tmod_eq_emod hk (by omega)]

theorem calc_piece_index_formula_witness :
    (1 : Int) ≤ ([3, 2, 0, 3, 4, 5] : List Int).getD 0 0 ∧
    (0 : Int) ≤ ([3, 2, 0, 3, 4, 5] : List Int).getD (2 + 2) 0 ∧
    (calc_piece_index [3, 2, 0, 3, 4, 5] 2 5 6 =
      (([3, 2, 0, 3, 4, 5] : List Int).getD (2 + 2) 0 / ([3, 2, 0, 3, 4, 5] : List Int).getD 0 0
        + 6) * (WIDTH : Int) +
        (([3, 2, 0, 3, 4, 5] : List Int).getD (2 + 2) 0 % ([3, 2, 0, 3, 4, 5] : List Int).getD 0 0
          + 5) ∧
    (WIDTH : Int) = 10) :=
  ⟨by decide, by decide,
    calc_piece_index_formula [3, 2, 0, 3, 4, 5] 2 5 6 (by decide) (by decide)⟩

theorem clear_map_loop (map : List Int) :
    ∀ n : Nat,
      (for_range n (fun i (m : List Int) => m.set i 0) map).length = map.length ∧
      ∀ j, (for_range n (fun i (m : List Int) => m.set i 0) map).getD j 0 =
        if j < n then 0 else map.getD j 0 := by
  intro n
  induction n with
  | zero =>
    refine ⟨rfl, ?_⟩
    intro j
    rw [if_neg (by omega)]
    rfl
  | succ n ih =>
    rw [for_range_succ]
    refine ⟨by rw [List.length_set]; exact ih.1, ?_⟩
    intro j
    rw [getD_set, ih.2 j, ih.1]
    by_cases hj : n = j
    · subst hj
      by_cases hl : n < map.length
      · rw [if_pos ⟨rfl, hl⟩, if_pos (Nat.lt_succ_self n)]
      · rw [if_neg (by tauto), if_neg (Nat.lt_irrefl n), if_pos (Nat.lt_succ_self n),
          List.getD_eq_getElem?_getD, List.getElem?_eq_none (by omega)]
        rfl
    · rw [if_neg (by tauto)]
      by_cases hr : j < n
      · rw [if_pos hr, if_pos (by omega)]
      · rw [if_neg hr, if_neg (by omega)]

/-- After `clear_map` the board has its old length and every cell with index
below `WIDTH * HEIGHT` is 0. -/
theorem clear_map_spec (map : List Int) :
    (clear_map map).length = map.length ∧
    ∀ j, (clear_map map).getD j 0 = if j < WIDTH * HEIGHT then 0 else map.getD j 0 :=
  clear_map_loop map (WIDTH * HEIGHT)

theorem getD_of_mem (l : List Int) (v : Int) (hv : v ∈ l) :
    ∃ j, j < l.length ∧ l.getD j 0 = v := by
  obtain ⟨j, hj, e⟩ := List.getElem_of_mem hv
  refine ⟨j, hj, ?_⟩
  rw [List.getD_eq_getElem?_getD, List.getElem?_eq_getElem hj]
  exact e

theorem eq_replicate_zero (m : List Int) (n : Nat) (hlen : m.length = n)
    (h : ∀ j, j < n → m.getD j 0 = 0) : m = List.replicate n 0 := by
  apply List.ext_getElem
  · rw [hlen, List.length_replicate]
  · intro j h1 h2
    have hg := h j (by omega)
    rw [List.getD_eq_getElem?_getD, List.getElem?_eq_getElem h1] at hg
    rw [List.getElem_replicate]
    exact hg

/-- C12: for every GameOver state (with a board of `WIDTH * HEIGHT` cells),
the input block applied to the restart command makes every board cell empty,
sets `score` to 0, clears `game_over` and spawns a new active piece with a
shape index in `0 .. 6`, `origin_x = 0` and `origin_y = -2`; this is the state
before the gravity step of that tick, and the other variables are kept. -/
theorem restart_resets (s : State) (w : Int) (inp : Input) (r : Nat)
    (hover : s.game_over ≠ 0) (hinp : is_restart inp)
    (hlen : s.map.length = WIDTH * HEIGHT) :
    ∃ s1, handle_input s w inp r = some s1 ∧
      s1.map = List.replicate (WIDTH * HEIGHT) 0 ∧ s1.score = 0 ∧ s1.game_over = 0 ∧
      0 ≤ s1.piece_index ∧ s1.piece_index ≤ 6 ∧ s1.piece_x = 0 ∧ s1.piece_y = -2 ∧
      s1.rotation = s.rotation ∧ s1.move_delay_count = s.move_delay_count := by
  obtain ⟨hb, h32⟩ := hinp
  have hmap : clear_map s.map = List.replicate (WIDTH * HEIGHT) 0 := by
    apply eq_replicate_zero
    · rw [(clear_map_spec s.map).1, hlen]
    · intro j hj
      rw [(clear_map_spec s.map).2 j, if_pos hj]
  have hh : handle_input s w inp r = some { s with
      game_over := 0
      map := clear_map s.map
      piece_index := random_number r 0 6
      piece_x := 0
      piece_y := -2
      score := 0 } := by
    unfold handle_input
    rw [if_pos hb, if_neg (by omega), if_pos h32, if_pos hover]
  generalize clear_map s.map = m at hh hmap
  exact ⟨_, hh, hmap, rfl, rfl, (random_number_range r).1, (random_number_range r).2,
    rfl, rfl, rfl, rfl⟩

set_option maxRecDepth 100000 in
theorem restart_resets_witness :
    ({ state_over_edge with game_over := 1 } : State).game_over ≠ 0 ∧ is_restart key_space ∧
    ({ state_over_edge with game_over := 1 } : State).map.length = WIDTH * HEIGHT ∧
    ∃ s1, handle_input { state_over_edge with game_over := 1 } 3 key_space 11 = some s1 ∧
      s1.map = List.replicate (WIDTH * HEIGHT) 0 ∧ s1.score = 0 ∧ s1.game_over = 0 ∧
      0 ≤ s1.piece_index ∧ s1.piece_index ≤ 6 ∧ s1.piece_x = 0 ∧ s1.piece_y = -2 ∧
      s1.rotation = 0 ∧ s1.move_delay_count = 0 :=
  ⟨by decide, by decide, by decide,
    restart_resets { state_over_edge with game_over := 1 } 3 key_space 11 (by decide)
      (by decide) (by decide)⟩

theorem handle_input_left (s : State) (w : Int) (r : Nat) :
    handle_input s w key_left r =
      some (if s.piece_x > 0 then { s with piece_x := s.piece_x - 1 } else s) := by
  unfold handle_input key_left
  simp only [gt_iff_lt, show (0 : Int) < 3 by decide, if_true, show ¬ ((3 : Int) = 1) by decide,
    if_false, show ¬ ((68 : Int) = 65) by decide, show ¬ ((68 : Int) = 66) by decide,
    show ¬ ((68 : Int) = 67) by decide]
  split_ifs <;> rfl

theorem handle_input_right (s : State) (w : Int) (r : Nat) :
    handle_input s w key_right r =
      some (if s.piece_x + w < (WIDTH : Int) then { s with piece_x := s.piece_x + 1 } else s) := by
  unfold handle_input key_right
  simp only [gt_iff_lt, show (0 : Int) < 3 by decide, if_true, show ¬ ((3 : Int) = 1) by decide,
    if_false, show ¬ ((67 : Int) = 65) by decide, show ¬ ((67 : Int) = 66) by decide]
  split_ifs <;> rfl

theorem gravity_piece_x (s : State) : (gravity s).piece_x = s.piece_x := by
  unfold gravity
  split_ifs <;> rfl

/-- After a tick the piece is at column 0 or where input and gravity left it. -/
theorem tick_piece_x (s s4 : State) (inp : Input) (r1 r2 : Nat)
    (h : tick s inp r1 r2 = Step.next s4) :
    ∃ s2 data c, tick_check s inp r1 = Step.next (s2, data, c) ∧
      (s4.piece_x = 0 ∨ s4.piece_x = s2.piece_x) := by
  obtain ⟨s2, data, c, s3, hcheck, hlock, e⟩ := tick_eq_next s s4 inp r1 r2 h
  refine ⟨s2, data, c, hcheck, ?_⟩
  rw [e]
  rcases lock_eq_some s2 s3 data c r2 hlock with ⟨-, e3⟩ | ⟨-, m, -, e3⟩
  · right; rw [e3]
  · left; rw [e3]

theorem tick_left_at_zero (s s4 : State) (r1 r2 : Nat) (hx : s.piece_x = 0)
    (h : tick s key_left r1 r2 = Step.next s4) : s4.piece_x = 0 := by
  obtain ⟨s2, data, c, hcheck, hor⟩ := tick_piece_x s s4 key_left r1 r2 h
  obtain ⟨buf, s1, -, hs1, hs2, -⟩ := tick_check_next s key_left r1 s2 data c hcheck
  rw [handle_input_left] at hs1
  have h1 : s1.piece_x = 0 := by
    rw [← Option.some.inj hs1]
    show (if s.piece_x > 0 then _ else _ : State).piece_x = 0
    rw [if_neg (by omega)]
    exact hx
  rcases hor with h0 | h0
  · exact h0
  · rw [h0, hs2, gravity_piece_x, h1]

theorem run_left_at_zero (ticks : List (Input × Nat × Nat)) :
    ∀ s s4 : State, (∀ t ∈ ticks, t.1 = key_left) → s.piece_x = 0 →
      run s ticks = Step.next s4 → s4.piece_x = 0 := by
  induction ticks with
  | nil =>
    intro s s4 _ hx h
    rw [run_nil] at h
    rw [← Step.next.inj h]
    exact hx
  | cons t rest ih =>
    intro s s4 hall hx h
    obtain ⟨inp, r1, r2⟩ := t
    have hinp : inp = key_left := hall (inp, r1, r2) (by simp)
    subst hinp
    obtain ⟨s1, h1, hrest⟩ := run_cons_eq_next s s4 key_left r1 r2 rest h
    exact ih s1 s4 (fun t ht => hall t (by simp [ht])) (tick_left_at_zero s s1 r1 r2 hx h1) hrest

/-- C16: a move command that would push the bounding box of the piece outside
`0 .. WIDTH-1` is a no-op.  The input block on arrow-left subtracts 1 from
`origin_x` if `origin_x > 0` and otherwise changes nothing; on arrow-right it
adds 1 if `origin_x + width < WIDTH` and otherwise changes nothing; so a
bounding box inside `[0, WIDTH)` stays inside.  In a tick the width used is
that of the current rotated shape, and gravity does not touch `origin_x`.
Arrow-left repeated any number of ticks on a piece at `x = 0` leaves
`x = 0`. -/
theorem move_guarded (s : State) (w : Int) (r : Nat) :
    handle_input s w key_left r =
      some (if s.piece_x > 0 then { s with piece_x := s.piece_x - 1 } else s) ∧
    handle_input s w key_right r =
      some (if s.piece_x + w < (WIDTH : Int) then { s with piece_x := s.piece_x + 1 } else s) ∧
    (∀ inp s1, inp = key_left ∨ inp = key_right → handle_input s w inp r = some s1 →
      0 ≤ s.piece_x ∧ s.piece_x + w ≤ (WIDTH : Int) →
      0 ≤ s1.piece_x ∧ s1.piece_x + w ≤ (WIDTH : Int)) ∧
    (∀ inp s2 data c, tick_check s inp r = Step.next (s2, data, c) →
      ∃ buf s1, current_piece_data s = some (data, buf) ∧
        handle_input { s with rotated_map := buf } (data.getD 0 0) inp r = some s1 ∧
        s2.piece_x = s1.piece_x) ∧
    (∀ ticks s4, (∀ t ∈ ticks, t.1 = key_left) → s.piece_x = 0 →
      run s ticks = Step.next s4 → s4.piece_x = 0) := by
  refine ⟨handle_input_left s w r, handle_input_right s w r, ?_, ?_, ?_⟩
  · intro inp s1 hinp h1 hbox
    rcases hinp with e | e <;> subst e
    · rw [handle_input_left] at h1
      rw [← Option.some.inj h1]
      by_cases hx : s.piece_x > 0
      · rw [if_pos hx]
        show 0 ≤ s.piece_x - 1 ∧ s.piece_x - 1 + w ≤ (WIDTH : Int)
        omega
      · rw [if_neg hx]
        exact hbox
    · rw [handle_input_right] at h1
      rw [← Option.some.inj h1]
      by_cases hx : s.piece_x + w < (WIDTH : Int)
      · rw [if_pos hx]
        show 0 ≤ s.piece_x + 1 ∧ s.piece_x + 1 + w ≤ (WIDTH : Int)
        omega
      · rw [if_neg hx]
        exact hbox
  · intro inp s2 data c hcheck
    obtain ⟨buf, s1, hpd, hs1, hs2, -⟩ := tick_check_next s inp r s2 data c hcheck
    exact ⟨buf, s1, hpd, hs1, by rw [hs2, gravity_piece_x]⟩
  · intro ticks s4 hall hx hrun
    exact run_left_at_zero ticks s s4 hall hx hrun

set_option maxRecDepth 100000 in
theorem move_guarded_witness :
    run (initial_state 3) (List.replicate 20 (key_left, 0, 0)) =
      Step.next { initial_state 3 with piece_y := 0, move_delay_count := 9 } ∧
    ({ initial_state 3 with piece_y := 0, move_delay_count := 9 } : State).piece_x = 0 :=
  ⟨by decide,
    (move_guarded (initial_state 3) 2 0).2.2.2.2 (List.replicate 20 (key_left, 0, 0)) _
      (fun t ht => by rw [List.eq_of_mem_replicate ht]) (by decide) (by decide)⟩

/-! ## The tick does not look at `game_over` -/

theorem tick_check_not_failed (s : State) (inp : Input) (r : Nat) (s2 : State)
    (data : List Int) (c : Int) (hcheck : tick_check s inp r = Step.next (s2, data, c)) :
    inp.failed = false := by
  unfold tick_check at hcheck
  split at hcheck
  · exact absurd hcheck (by simp)
  · rename_i hf
    simpa using hf

theorem tick_check_intro (s : State) (inp : Input) (r : Nat) (s1 : State)
    (data buf : List Int) (c : Int) (hf : inp.failed = false)
    (hpd : current_piece_data s = some (data, buf))
    (hs1 : handle_input { s with rotated_map := buf } (data.getD 0 0) inp r = some s1)
    (hc : check_collision (gravity s1).map data (gravity s1).piece_x (gravity s1).piece_y =
      some c) :
    tick_check s inp r = Step.next (gravity s1, data, c) := by
  unfold tick_check
  rw [if_neg (by simp [hf]), hpd]
  dsimp only
  rw [hs1]
  dsimp only
  rw [hc]

theorem handle_input_flag (s : State) (w : Int) (inp : Input) (r : Nat) (g : Int)
    (hnr : ¬ is_restart inp) :
    handle_input (set_flag g s) w inp r = (handle_input s w inp r).map (set_flag g) := by
  unfold is_restart at hnr
  unfold handle_input set_flag
  dsimp only
  by_cases hb : inp.bytesRead > 0
  · have h32 : ¬ inp.b0 = 32 := fun h => hnr ⟨hb, h⟩
    simp only [hb, h32, if_true, if_false]
    split_ifs <;> rfl
  · simp only [hb, if_false]
    rfl

theorem gravity_flag (s : State) (g : Int) : gravity (set_flag g s) = set_flag g (gravity s) := by
  unfold gravity set_flag
  dsimp only
  split_ifs <;> rfl

theorem tick_check_flag (s : State) (inp : Input) (r : Nat) (s2 : State) (data : List Int)
    (c g : Int) (hnr : ¬ is_restart inp)
    (hcheck : tick_check s inp r = Step.next (s2, data, c)) :
    tick_check (set_flag g s) inp r = Step.next (set_flag g s2, data, c) := by
  have hf := tick_check_not_failed s inp r s2 data c hcheck
  obtain ⟨buf, s1, hpd, hs1, hs2, hc⟩ := tick_check_next s inp r s2 data c hcheck
  have h1 : handle_input { set_flag g s with rotated_map := buf } (data.getD 0 0) inp r =
      some (set_flag g s1) := by
    have := handle_input_flag { s with rotated_map := buf } (data.getD 0 0) inp r g hnr
    rw [hs1] at this
    exact this
  have h2 := tick_check_intro (set_flag g s) inp r (set_flag g s1) data buf c hf hpd h1
    (by rw [gravity_flag]; rw [hs2] at hc; exact hc)
  rw [gravity_flag, ← hs2] at h2
  exact h2

theorem lock_flag (s2 s3 : State) (data : List Int) (c : Int) (r : Nat) (g : Int)
    (hlock : lock s2 data c r = some s3) :
    ∃ g1, lock (set_flag g s2) data c r = some (set_flag g1 s3) ∧ (g ≠ 0 → g1 ≠ 0) := by
  rcases lock_eq_some s2 s3 data c r hlock with ⟨hc, e3⟩ | ⟨hc, m, hm, e3⟩
  · subst hc
    refine ⟨g, ?_, id⟩
    rw [lock_no_collision, e3]
  · refine ⟨if s2.piece_y < 0 then 1 else g, ?_, ?_⟩
    · unfold lock
      rw [if_pos hc]
      show (match merge_piece s2.map data s2.piece_x s2.piece_y with
        | none => none
        | some map => some _) = _
      rw [hm, e3]
      rfl
    · intro hg
      split_ifs
      · decide
      · exact hg

/-- A tick on a state and on the same state with another value of
`game_over`, the input not being the restart command, end in states that
differ in `game_over` only; a set flag stays set. -/
theorem tick_flag (s s4 : State) (inp : Input) (r1 r2 : Nat) (g : Int)
    (hnr : ¬ is_restart inp) (h : tick s inp r1 r2 = Step.next s4) :
    ∃ g1, tick (set_flag g s) inp r1 r2 = Step.next (set_flag g1 s4) ∧ (g ≠ 0 → g1 ≠ 0) := by
  obtain ⟨s2, data, c, s3, hcheck, hlock, e⟩ := tick_eq_next s s4 inp r1 r2 h
  obtain ⟨g1, hl, hg⟩ := lock_flag s2 s3 data c r2 g hlock
  refine ⟨g1, ?_, hg⟩
  have key := tick_of_lock (set_flag g s) inp r1 r2 (set_flag g s2) (set_flag g1 s3) data c
    (tick_check_flag s inp r1 s2 data c g hnr hcheck) hl
  have e1 : (set_flag g1 s3).map = s3.map := rfl
  have e2 : (set_flag g1 s3).score = s3.score := rfl
  rw [e1, e2] at key
  rw [key, e]
  generalize handle_complete_lines (s3.map, s3.score) = cleared
  rfl

theorem run_flag (ticks : List (Input × Nat × Nat)) :
    ∀ (s s4 : State) (g : Int), (∀ t ∈ ticks, ¬ is_restart t.1) →
      run s ticks = Step.next s4 →
      ∃ g1, run (set_flag g s) ticks = Step.next (set_flag g1 s4) ∧ (g ≠ 0 → g1 ≠ 0) := by
  induction ticks with
  | nil =>
    intro s s4 g _ h
    rw [run_nil] at h
    exact ⟨g, by rw [run_nil, Step.next.inj h], id⟩
  | cons t rest ih =>
    intro s s4 g hall h
    obtain ⟨inp, r1, r2⟩ := t
    obtain ⟨s1, h1, hrest⟩ := run_cons_eq_next s s4 inp r1 r2 rest h
    obtain ⟨g1, ht, hg1⟩ := tick_flag s s1 inp r1 r2 g (hall (inp, r1, r2) (by simp)) h1
    obtain ⟨g2, hr, hg2⟩ := ih s1 s4 g1 (fun t ht => hall t (by simp [ht])) hrest
    exact ⟨g2, by rw [run_cons_next _ _ _ _ _ _ ht]; exact hr, fun hg => hg2 (hg1 hg)⟩

set_option maxRecDepth 100000 in
/-- C11, counterexample: `state_gap_drop` with `game_over` set is a GameOver
state; a tick without any key is not a restart, yet it moves the piece down,
locks it, clears a line and spawns a new piece: board, score and active piece
after the tick all differ from those before it. -/
theorem game_over_tick_counterexample :
    (set_flag 1 state_gap_drop).game_over ≠ 0 ∧ ¬ is_restart no_key ∧
    (set_flag 1 state_gap_drop).map = board_gap_left ∧
    (set_flag 1 state_gap_drop).score = 0 ∧
    (set_flag 1 state_gap_drop).piece_index = 0 ∧
    (set_flag 1 state_gap_drop).piece_y = 5 ∧
    tick (set_flag 1 state_gap_drop) no_key 0 4 =
      Step.next { map := (List.range 100).map (fun j => if j = 70 ∨ j = 80 ∨ j = 90 then 1 else 0)
                  piece_index := 4
                  piece_x := 0
                  piece_y := -2
                  move_delay_count := 0
                  rotation := 1
                  score := 1
                  game_over := 1
                  rotated_map := [1, 4, 0, 1, 2, 3] } := by
  decide

/-- C11, amended: for every GameOver state and every sequence of ticks none
of whose inputs is the restart command, `game_over` is still set after the
ticks; the board, the score and the active piece are not frozen: the ticks
update them exactly as they would from the same state in Playing (the same
state with `game_over = 0`). -/
theorem game_over_stays_set (s : State) (ticks : List (Input × Nat × Nat))
    (hover : s.game_over ≠ 0) (hnr : ∀ t ∈ ticks, ¬ is_restart t.1) :
    (∀ s4, run s ticks = Step.next s4 → s4.game_over ≠ 0) ∧
    (∀ s4, run (set_flag 0 s) ticks = Step.next s4 →
      ∃ g, g ≠ 0 ∧ run s ticks = Step.next (set_flag g s4)) := by
  constructor
  · intro s4 h
    obtain ⟨g1, hr, hg⟩ := run_flag ticks s s4 s.game_over hnr h
    have e : set_flag s.game_over s = s := rfl
    rw [e, h] at hr
    have e4 : s4 = set_flag g1 s4 := Step.next.inj hr
    rw [e4]
    exact hg hover
  · intro s4 h
    obtain ⟨g1, hr, hg⟩ := run_flag ticks (set_flag 0 s) s4 s.game_over hnr h
    have e : set_flag s.game_over (set_flag 0 s) = s := rfl
    rw [e] at hr
    exact ⟨g1, hg hover, hr⟩

set_option maxRecDepth 100000 in
theorem game_over_stays_set_witness :
    (set_flag 1 state_gap_drop).game_over ≠ 0 ∧
    (∀ t ∈ [(no_key, 0, 4)], ¬ is_restart t.1) ∧
    run (set_flag 0 (set_flag 1 state_gap_drop)) [(no_key, 0, 4)] =
      Step.next { map := (List.range 100).map (fun j => if j = 70 ∨ j = 80 ∨ j = 90 then 1 else 0)
                  piece_index := 4
                  piece_x := 0
                  piece_y := -2
                  move_delay_count := 0
                  rotation := 1
                  score := 1
                  game_over := 0
                  rotated_map := [1, 4, 0, 1, 2, 3] } ∧
    ((∀ s4, run (set_flag 1 state_gap_drop) [(no_key, 0, 4)] = Step.next s4 →
        s4.game_over ≠ 0) ∧
      (∀ s4, run (set_flag 0 (set_flag 1 state_gap_drop)) [(no_key, 0, 4)] = Step.next s4 →
        ∃ g, g ≠ 0 ∧ run (set_flag 1 state_gap_drop) [(no_key, 0, 4)] =
          Step.next (set_flag g s4))) :=
  ⟨by decide, by decide, by decide,
    game_over_stays_set (set_flag 1 state_gap_drop) [(no_key, 0, 4)] (by decide) (by decide)⟩

/-! ## Gravity -/

theorem handle_input_no_key (s : State) (w : Int) (r : Nat) :
    handle_input s w no_key r = some s := by
  unfold handle_input no_key
  rw [if_neg (by decide)]

/-- In a tick without input and without collision the position and the
counter are those the gravity block computes. -/
theorem idle_tick_gravity (s s1 : State) (h : idle_tick s = some s1) :
    s1.piece_y = (gravity s).piece_y ∧
    s1.move_delay_count = (gravity s).move_delay_count := by
  unfold idle_tick at h
  split at h
  · rename_i s2 data c hcheck
    split at h
    · rename_i hc
      subst hc
      obtain ⟨buf, s0, -, hs0, hs2, -⟩ := tick_check_next s no_key 0 s2 data 0 hcheck
      rw [handle_input_no_key] at hs0
      have ht := tick_of_lock s no_key 0 0 s2 s2 data 0 hcheck (lock_no_collision s2 data 0)
      rw [ht] at h
      simp only [Option.some.injEq] at h
      rw [← h, hs2, ← Option.some.inj hs0]
      unfold gravity
      dsimp only
      split_ifs <;> exact ⟨rfl, rfl⟩
    · exact absurd h (by simp)
  · exact absurd h (by simp)

theorem idle_ticks_succ (n : Nat) (s : State) :
    idle_ticks (n + 1) s = (idle_tick s).bind (idle_ticks n) := rfl

theorem idle_ticks_counter :
    ∀ (n m : Nat) (s s4 : State), s.move_delay_count = (m : Int) → m ≤ 10 →
      idle_ticks n s = some s4 →
      s4.piece_y = s.piece_y + (((m + n) / 11 : Nat) : Int) ∧
      s4.move_delay_count = (((m + n) % 11 : Nat) : Int) := by
  intro n
  induction n with
  | zero =>
    intro m s s4 hm hle h
    have e : s4 = s := (Option.some.inj h).symm
    subst e
    refine ⟨?_, ?_⟩
    · have : (m + 0) / 11 = 0 := by omega
      rw [this]
      simp
    · have : (m + 0) % 11 = m := by omega
      rw [this]
      exact hm
  | succ n ih =>
    intro m s s4 hm hle h
    rw [idle_ticks_succ] at h
    cases h1 : idle_tick s with
    | none => rw [h1] at h; exact absurd h (by simp)
    | some s1 =>
      rw [h1] at h
      simp only [Option.some_bind] at h
      obtain ⟨hy, hc⟩ := idle_tick_gravity s s1 h1
      unfold gravity move_delay at hy hc
      by_cases h10 : m = 10
      · subst h10
        rw [if_pos (by omega)] at hy hc
        obtain ⟨hy4, hc4⟩ := ih 0 s1 s4 (by simpa using hc) (by omega) h
        rw [hy4, hc4, hy]
        refine ⟨?_, ?_⟩
        · show s.piece_y + 1 + _ = _
          have : (10 + (n + 1)) / 11 = (0 + n) / 11 + 1 := by omega
          rw [this]
          push_cast
          ring
        · have : (10 + (n + 1)) % 11 = (0 + n) % 11 := by omega
          rw [this]
      · rw [if_neg (by omega)] at hy hc
        have hc1 : s1.move_delay_count = ((m + 1 : Nat) : Int) := by
          rw [hc]
          show s.move_delay_count + 1 = _
          rw [hm]
          push_cast
          ring
        obtain ⟨hy4, hc4⟩ := ih (m + 1) s1 s4 hc1 (by omega) h
        rw [hy4, hc4, hy]
        have e1 : (m + 1 + n) = (m + (n + 1)) := by omega
        rw [e1]
        exact ⟨rfl, rfl⟩

set_option maxRecDepth 100000 in
/-- C13, counterexample: from the initial state (gravity counter 0, first
piece `pieces[0]`), ten ticks without input and without collision leave
`origin_y` at -1: the first ten ticks only count, it is the eleventh that
moves the piece. -/
theorem gravity_ten_ticks_counterexample :
    (initial_state 0).move_delay_count = 0 ∧ (initial_state 0).piece_y = -1 ∧
    idle_ticks 10 (initial_state 0) =
      some { initial_state 0 with piece_y := -1, move_delay_count := 10 } ∧
    idle_ticks 11 (initial_state 0) =
      some { initial_state 0 with piece_y := 0, move_delay_count := 0 } := by
  decide

/-- C13, amended: with `move_delay = 10`, in ticks with no input and no
collision, gravity advances `origin_y` by exactly 1 on every 11th tick and on
no other tick: starting from a gravity counter of 0, after `n` such ticks
`origin_y` has increased by exactly `n / 11` (so by 1 after 11 ticks, by `k`
after `11 * k` ticks, by 0 after 10) and the counter is `n % 11`. -/
theorem gravity_every_eleventh_tick (s s4 : State) (n : Nat)
    (h0 : s.move_delay_count = 0) (h : idle_ticks n s = some s4) :
    s4.piece_y = s.piece_y + ((n / 11 : Nat) : Int) ∧
    s4.move_delay_count = ((n % 11 : Nat) : Int) := by
  have := idle_ticks_counter n 0 s s4 (by rw [h0]; rfl) (by omega) h
  rw [Nat.zero_add] at this
  exact this

set_option maxRecDepth 100000 in
theorem gravity_every_eleventh_tick_witness :
    (initial_state 0).move_delay_count = 0 ∧
    idle_ticks 25 (initial_state 0) =
      some { initial_state 0 with piece_y := 1, move_delay_count := 3 } ∧
    (({ initial_state 0 with piece_y := 1, move_delay_count := 3 } : State).piece_y =
        (initial_state 0).piece_y + ((25 / 11 : Nat) : Int) ∧
      ({ initial_state 0 with piece_y := 1, move_delay_count := 3 } : State).move_delay_count =
        ((25 % 11 : Nat) : Int)) :=
  ⟨by decide, by decide,
    gravity_every_eleventh_tick (initial_state 0) _ 25 (by decide) (by decide)⟩

/-! ## Line clearing: no full row is left -/

theorem not_full_row_iff (m : List Int) (y : Nat) :
    ¬ full_row m y ↔ ∃ x, x < WIDTH ∧ cell m y x = 0 := by
  unfold full_row
  constructor
  · intro h
    by_contra hne
    apply h
    intro x hx hc
    exact hne ⟨x, hx, hc⟩
  · rintro ⟨x, hx, hc⟩ h
    exact h x hx hc

/-- Clearing the full row `n` leaves no full row among the rows `0 .. n` when
there was none among the rows `0 .. n-1`. -/
theorem clear_line_no_full (m : List Int) (n : Nat) (hn : n < HEIGHT)
    (hlen : m.length = WIDTH * HEIGHT) (hprev : ∀ y, y < n → ¬ full_row m y) :
    ∀ y, y < n + 1 → ¬ full_row (clear_line m n) y := by
  intro y hy
  obtain ⟨-, hget⟩ := clear_line_spec m n hn hlen
  rw [not_full_row_iff]
  unfold cell
  by_cases hy0 : y = 0
  · subst hy0
    by_cases hn0 : n = 0
    · subst hn0
      refine ⟨0, by decide, ?_⟩
      rw [hget]
      have hc1 : ¬ (WIDTH ≤ 0 * WIDTH + 0 ∧ 0 * WIDTH + 0 < (0 + 1) * WIDTH) := by
        decide
      have hc2 : (0 : Nat) = 0 ∧ 0 * WIDTH + 0 < WIDTH := by
        decide
      rw [if_neg hc1, if_pos hc2]
    · obtain ⟨x, hx, hc⟩ := (not_full_row_iff m 0).1 (hprev 0 (by omega))
      refine ⟨x, hx, ?_⟩
      rw [hget]
      have hc1 : ¬ (WIDTH ≤ 0 * WIDTH + x ∧ 0 * WIDTH + x < (n + 1) * WIDTH) := by
        simp only [WIDTH] at hx ⊢; omega
      have hc2 : ¬ (n = 0 ∧ 0 * WIDTH + x < WIDTH) := by
        intro h; exact hn0 h.1
      rw [if_neg hc1, if_neg hc2]
      exact hc
  · obtain ⟨x, hx, hc⟩ := (not_full_row_iff m (y - 1)).1 (hprev (y - 1) (by omega))
    refine ⟨x, hx, ?_⟩
    rw [hget]
    have hc1 : WIDTH ≤ y * WIDTH + x ∧ y * WIDTH + x < (n + 1) * WIDTH := by
      simp only [WIDTH] at hx ⊢; omega
    have hidx : y * WIDTH + x - WIDTH = (y - 1) * WIDTH + x := by
      simp only [WIDTH]; omega
    rw [if_pos hc1, hidx]
    exact hc

/-- Invariant of the pass: after the rows `0 .. n-1` have been visited none
of them is full. -/
theorem pass_leaves_no_full_row (map : List Int) (score : Int)
    (hlen : map.length = WIDTH * HEIGHT) :
    ∀ n : Nat, n ≤ HEIGHT →
      (for_range n line_step (map, score)).1.length = WIDTH * HEIGHT ∧
      ∀ y, y < n → ¬ full_row (for_range n line_step (map, score)).1 y := by
  intro n
  induction n with
  | zero =>
    intro _
    exact ⟨hlen, fun y hy => absurd hy (by omega)⟩
  | succ n ih =>
    intro hn
    obtain ⟨hl, hprev⟩ := ih (by omega)
    rw [for_range_succ]
    generalize for_range n line_step (map, score) = st at hl hprev ⊢
    unfold line_step
    by_cases hf : row_has_empty_tile st.1 n = 0
    · rw [if_pos hf]
      exact ⟨(clear_line_spec st.1 n (by omega) hl).1,
        clear_line_no_full st.1 n (by omega) hl hprev⟩
    · rw [if_neg hf]
      refine ⟨hl, ?_⟩
      intro y hy
      by_cases hyn : y = n
      · subst hyn
        intro hfull
        exact hf ((row_has_empty_tile_iff st.1 y).2 hfull)
      · exact hprev y (by omega)

theorem handle_complete_lines_no_full (map : List Int) (score : Int)
    (hlen : map.length = WIDTH * HEIGHT) :
    (handle_complete_lines (map, score)).1.length = WIDTH * HEIGHT ∧
    ∀ y, y < HEIGHT → ¬ full_row (handle_complete_lines (map, score)).1 y := by
  rw [handle_complete_lines_eq]
  exact pass_leaves_no_full_row map score hlen HEIGHT (le_refl _)

theorem handle_complete_lines_id (map : List Int) (score : Int)
    (h : ∀ y, y < HEIGHT → ¬ full_row map y) :
    handle_complete_lines (map, score) = (map, score) := by
  rw [handle_complete_lines_eq]
  exact pass_no_full_row map score HEIGHT h

theorem write_map_eq_some (m m1 : List Int) (i v : Int) (h : write_map m i v = some m1) :
    (0 ≤ i ∧ i < (m.length : Int)) ∧ m1 = m.set i.toNat v := by
  unfold write_map at h
  split_ifs at h with hc
  exact ⟨hc, (Option.some.inj h).symm⟩

/-- A defined merge wrote four cells inside the board. -/
theorem merge_piece_in_range (map data m : List Int) (x y : Int)
    (h : merge_piece map data x y = some m) :
    ∀ k, k ∈ piece_cells data x y → 0 ≤ k ∧ k < (map.length : Int) := by
  unfold merge_piece at h
  simp only [for_range, Option.some_bind] at h
  cases h0 : write_map map (calc_piece_index data 0 x y) 1 with
  | none => rw [h0] at h; exact absurd h (by simp)
  | some m0 =>
    rw [h0] at h
    simp only [Option.some_bind] at h
    obtain ⟨r0, e0⟩ := write_map_eq_some _ _ _ _ h0
    cases h1 : write_map m0 (calc_piece_index data 1 x y) 1 with
    | none => rw [h1] at h; exact absurd h (by simp)
    | some m1 =>
      rw [h1] at h
      simp only [Option.some_bind] at h
      obtain ⟨r1, e1⟩ := write_map_eq_some _ _ _ _ h1
      cases h2 : write_map m1 (calc_piece_index data 2 x y) 1 with
      | none => rw [h2] at h; exact absurd h (by simp)
      | some m2 =>
        rw [h2] at h
        simp only [Option.some_bind] at h
        obtain ⟨r2, e2⟩ := write_map_eq_some _ _ _ _ h2
        obtain ⟨r3, -⟩ := write_map_eq_some _ _ _ _ h
        have l0 : m0.length = map.length := by rw [e0, List.length_set]
        have l1 : m1.length = map.length := by rw [e1, List.length_set, l0]
        have l2 : m2.length = map.length := by rw [e2, List.length_set, l1]
        rw [l0] at r1
        rw [l1] at r2
        rw [l2] at r3
        intro k hk
        simp only [piece_cells, List.mem_cons, List.mem_singleton, List.not_mem_nil,
          or_false] at hk
        rcases hk with e | e | e | e <;> rw [e] <;> assumption

/-- What a defined merge did to the board. -/
theorem merge_piece_eq_some (map data m : List Int) (x y : Int)
    (h : merge_piece map data x y = some m) :
    m.length = map.length ∧
    ∀ j : Nat, m.getD j 0 = if (j : Int) ∈ piece_cells data x y then 1 else map.getD j 0 := by
  obtain ⟨m1, h1, hl, hg⟩ :=
    merge_piece_some map data x y (merge_piece_in_range map data m x y h)
  rw [h] at h1
  rw [Option.some.inj h1]
  exact ⟨hl, hg⟩

theorem handle_input_restart (s : State) (w : Int) (inp : Input) (r : Nat)
    (hover : s.game_over ≠ 0) (hinp : is_restart inp) :
    handle_input s w inp r = some { s with
      game_over := 0
      map := clear_map s.map
      piece_index := random_number r 0 6
      piece_x := 0
      piece_y := -2
      score := 0 } := by
  obtain ⟨hb, h32⟩ := hinp
  unfold handle_input
  rw [if_pos hb, if_neg (by omega), if_pos h32, if_pos hover]

/-- Unless it restarts the game, the input block leaves board, score and
`game_over` alone. -/
theorem handle_input_keeps (s s1 : State) (w : Int) (inp : Input) (r : Nat)
    (h : handle_input s w inp r = some s1) (hnr : ¬ (s.game_over ≠ 0 ∧ is_restart inp)) :
    s1.map = s.map ∧ s1.score = s.score ∧ s1.game_over = s.game_over := by
  unfold is_restart at hnr
  unfold handle_input at h
  split_ifs at h <;> first
    | (exfalso; exact hnr ⟨by assumption, by assumption, by assumption⟩)
    | (injection h with h; rw [← h]; exact ⟨rfl, rfl, rfl⟩)

theorem handle_input_map_length (s s1 : State) (w : Int) (inp : Input) (r : Nat)
    (h : handle_input s w inp r = some s1) : s1.map.length = s.map.length := by
  by_cases hr : s.game_over ≠ 0 ∧ is_restart inp
  · rw [handle_input_restart s w inp r hr.1 hr.2] at h
    have hl := (clear_map_spec s.map).1
    generalize clear_map s.map = m at h hl
    rw [← Option.some.inj h]
    exact hl
  · rw [(handle_input_keeps s s1 w inp r h hr).1]

theorem gravity_map (s : State) : (gravity s).map = s.map := by
  unfold gravity
  split_ifs <;> rfl

theorem gravity_score (s : State) : (gravity s).score = s.score := by
  unfold gravity
  split_ifs <;> rfl

theorem lock_map_length (s2 s3 : State) (data : List Int) (c : Int) (r : Nat)
    (h : lock s2 data c r = some s3) : s3.map.length = s2.map.length := by
  rcases lock_eq_some s2 s3 data c r h with ⟨-, e3⟩ | ⟨-, m, hm, e3⟩
  · rw [e3]
  · rw [e3]
    exact (merge_piece_eq_some _ _ _ _ _ hm).1

theorem lock_score (s2 s3 : State) (data : List Int) (c : Int) (r : Nat)
    (h : lock s2 data c r = some s3) : s3.score = s2.score := by
  rcases lock_eq_some s2 s3 data c r h with ⟨-, e3⟩ | ⟨-, m, -, e3⟩
  · rw [e3]
  · rw [e3]

/-- Up to the line clearing a tick keeps the number of cells of the board. -/
theorem tick_check_map_length (s s2 : State) (inp : Input) (r : Nat) (data : List Int)
    (c : Int) (h : tick_check s inp r = Step.next (s2, data, c)) :
    s2.map.length = s.map.length := by
  obtain ⟨buf, s1, -, hs1, hs2, -⟩ := tick_check_next s inp r s2 data c h
  rw [hs2, gravity_map, handle_input_map_length _ s1 _ inp r hs1]

/-- C19: for every board (of `WIDTH * HEIGHT` cells, any number and position
of fully occupied rows), after one line-clear pass no row of the board is
fully occupied, and a second pass changes neither board nor score; hence the
board at the end of every tick contains no complete row. -/
theorem no_full_row_after_pass (map : List Int) (score : Int)
    (hlen : map.length = WIDTH * HEIGHT) :
    (∀ y, y < HEIGHT → ¬ full_row (handle_complete_lines (map, score)).1 y) ∧
    handle_complete_lines (handle_complete_lines (map, score)) =
      handle_complete_lines (map, score) ∧
    (∀ (s s4 : State) (inp : Input) (r1 r2 : Nat), s.map = map →
      tick s inp r1 r2 = Step.next s4 →
      s4.map.length = WIDTH * HEIGHT ∧ ∀ y, y < HEIGHT → ¬ full_row s4.map y) := by
  have h1 := handle_complete_lines_no_full map score hlen
  refine ⟨h1.2, ?_, ?_⟩
  · generalize handle_complete_lines (map, score) = st at h1
    obtain ⟨m, sc⟩ := st
    exact handle_complete_lines_id m sc h1.2
  · intro s s4 inp r1 r2 hmap h
    obtain ⟨s2, data, c, s3, hcheck, hlock, e⟩ := tick_eq_next s s4 inp r1 r2 h
    have hl3 : s3.map.length = WIDTH * HEIGHT := by
      rw [lock_map_length s2 s3 data c r2 hlock, tick_check_map_length s s2 inp r1 data c hcheck,
        hmap, hlen]
    have h3 := handle_complete_lines_no_full s3.map s3.score hl3
    generalize handle_complete_lines (s3.map, s3.score) = st at e h3
    rw [e]
    exact h3

set_option maxRecDepth 100000 in
theorem no_full_row_after_pass_witness :
    board_column_and_bottom.length = WIDTH * HEIGHT ∧ full_row board_column_and_bottom 9 ∧
    ((∀ y, y < HEIGHT → ¬ full_row (handle_complete_lines (board_column_and_bottom, 0)).1 y) ∧
    handle_complete_lines (handle_complete_lines (board_column_and_bottom, 0)) =
      handle_complete_lines (board_column_and_bottom, 0) ∧
    (∀ (s s4 : State) (inp : Input) (r1 r2 : Nat), s.map = board_column_and_bottom →
      tick s inp r1 r2 = Step.next s4 →
      s4.map.length = WIDTH * HEIGHT ∧ ∀ y, y < HEIGHT → ¬ full_row s4.map y)) :=
  ⟨by decide, by decide, no_full_row_after_pass board_column_and_bottom 0 (by decide)⟩

/-! ## Score -/

theorem pass_score_le (st : List Int × Int) :
    ∀ n : Nat, st.2 ≤ (for_range n line_step st).2 := by
  intro n
  induction n with
  | zero => exact le_refl _
  | succ n ih =>
    rw [for_range_succ]
    generalize for_range n line_step st = st1 at ih ⊢
    unfold line_step
    split_ifs
    · show st.2 ≤ st1.2 + 1
      omega
    · exact ih

theorem handle_complete_lines_score_le (st : List Int × Int) :
    st.2 ≤ (handle_complete_lines st).2 := by
  rw [handle_complete_lines_eq]
  exact pass_score_le st HEIGHT

/-- A row in which every occupied cell belongs to a list of fewer than
`WIDTH` indices is not full. -/
theorem no_full_row_of_few (m cells : List Int) (y : Nat) (hlen : cells.length < WIDTH)
    (h : ∀ x, x < WIDTH → cell m y x ≠ 0 → ((y * WIDTH + x : Nat) : Int) ∈ cells) :
    ¬ full_row m y := by
  intro hf
  have hsub : (List.range WIDTH).map (fun x => ((y * WIDTH + x : Nat) : Int)) ⊆ cells := by
    intro v hv
    rw [List.mem_map] at hv
    obtain ⟨x, hx, rfl⟩ := hv
    rw [List.mem_range] at hx
    exact h x hx (hf x hx)
  have hnd : ((List.range WIDTH).map (fun x => ((y * WIDTH + x : Nat) : Int))).Nodup := by
    refine List.Nodup.map ?_ (List.nodup_range WIDTH)
    intro a b hab
    have e : ((y * WIDTH + a : Nat) : Int) = ((y * WIDTH + b : Nat) : Int) := hab
    have : (y * WIDTH + a : Nat) = y * WIDTH + b := by exact_mod_cast e
    omega
  have hle := (List.subperm_of_subset hnd hsub).length_le
  rw [List.length_map, List.length_range] at hle
  omega

/-- A board whose cells are all empty except possibly the four cells of a
piece has no full row. -/
theorem no_full_row_of_piece (m data : List Int) (x y : Int)
    (h : ∀ j, j < WIDTH * HEIGHT → m.getD j 0 ≠ 0 → (j : Int) ∈ piece_cells data x y) :
    ∀ row, row < HEIGHT → ¬ full_row m row := by
  intro row hrow
  apply no_full_row_of_few m (piece_cells data x y) row (show 4 < 10 by omega)
  intro col hcol hne
  unfold cell at hne
  refine h _ ?_ hne
  simp only [WIDTH, HEIGHT] at hrow hcol ⊢
  omega

/-- The tick that restarts the game ends with score 0. -/
theorem tick_restart_score (s s4 : State) (inp : Input) (r1 r2 : Nat)
    (h : tick s inp r1 r2 = Step.next s4) (hover : s.game_over ≠ 0)
    (hinp : is_restart inp) : s4.score = 0 := by
  obtain ⟨s2, data, c, s3, hcheck, hlock, e⟩ := tick_eq_next s s4 inp r1 r2 h
  obtain ⟨buf, s1, -, hs1, hs2, -⟩ := tick_check_next s inp r1 s2 data c hcheck
  rw [handle_input_restart { s with rotated_map := buf } (data.getD 0 0) inp r1 hover hinp]
    at hs1
  have hzero := (clear_map_spec s.map).2
  generalize clear_map s.map = m0 at hs1 hzero
  have e1 := (Option.some.inj hs1).symm
  have hm2 : s2.map = m0 := by rw [hs2, gravity_map, e1]
  have hsc2 : s2.score = 0 := by rw [hs2, gravity_score, e1]
  have hsc3 : s3.score = 0 := by rw [lock_score s2 s3 data c r2 hlock, hsc2]
  have hno : ∀ row, row < HEIGHT → ¬ full_row s3.map row := by
    apply no_full_row_of_piece s3.map data s2.piece_x s2.piece_y
    intro j hj hne
    rcases lock_eq_some s2 s3 data c r2 hlock with ⟨-, e3⟩ | ⟨-, m, hm, e3⟩
    · exfalso
      apply hne
      rw [e3, hm2, hzero j, if_pos hj]
    · have hg := (merge_piece_eq_some _ _ _ _ _ hm).2 j
      have hm3 : s3.map = m := by rw [e3]
      rw [hm3] at hne
      by_contra hnot
      apply hne
      rw [hg, if_neg hnot, hm2, hzero j, if_pos hj]
  rw [handle_complete_lines_id s3.map s3.score hno] at e
  rw [e]
  exact hsc3

/-- A tick that does not restart the game does not lower the score. -/
theorem tick_score_le (s s4 : State) (inp : Input) (r1 r2 : Nat)
    (h : tick s inp r1 r2 = Step.next s4) (hnr : ¬ (s.game_over ≠ 0 ∧ is_restart inp)) :
    s.score ≤ s4.score := by
  obtain ⟨s2, data, c, s3, hcheck, hlock, e⟩ := tick_eq_next s s4 inp r1 r2 h
  obtain ⟨buf, s1, -, hs1, hs2, -⟩ := tick_check_next s inp r1 s2 data c hcheck
  have hk := (handle_input_keeps _ s1 _ inp r1 hs1 hnr).2.1
  have hsc3 : s3.score = s.score := by
    rw [lock_score s2 s3 data c r2 hlock, hs2, gravity_score, hk]
  have hle := handle_complete_lines_score_le (s3.map, s3.score)
  generalize handle_complete_lines (s3.map, s3.score) = st at e hle
  rw [e]
  show s.score ≤ st.2
  rw [← hsc3]
  exact hle

theorem run_score_nonneg (ticks : List (Input × Nat × Nat)) :
    ∀ s s4 : State, 0 ≤ s.score → run s ticks = Step.next s4 → 0 ≤ s4.score := by
  induction ticks with
  | nil =>
    intro s s4 h0 h
    rw [run_nil] at h
    rw [← Step.next.inj h]
    exact h0
  | cons t rest ih =>
    intro s s4 h0 h
    obtain ⟨inp, r1, r2⟩ := t
    obtain ⟨s1, h1, hrest⟩ := run_cons_eq_next s s4 inp r1 r2 rest h
    refine ih s1 s4 ?_ hrest
    by_cases hr : s.game_over ≠ 0 ∧ is_restart inp
    · rw [tick_restart_score s s1 inp r1 r2 h1 hr.1 hr.2]
    · exact le_trans h0 (tick_score_le s s1 inp r1 r2 h1 hr)

/-- C14: for every state and every input, the score after a tick is greater
than or equal to the score before it, except when the tick applies the
restart command in GameOver, in which case the score after the tick is 0;
so over any run that starts with a score `≥ 0` (the initial score is 0) the
score is never negative. -/
theorem score_never_decreases (s s4 : State) (inp : Input) (r1 r2 : Nat)
    (h : tick s inp r1 r2 = Step.next s4) :
    (s.game_over ≠ 0 ∧ is_restart inp → s4.score = 0) ∧
    (¬ (s.game_over ≠ 0 ∧ is_restart inp) → s.score ≤ s4.score) ∧
    (∀ (ticks : List (Input × Nat × Nat)) (t t4 : State), 0 ≤ t.score →
      run t ticks = Step.next t4 → 0 ≤ t4.score) ∧
    (∀ r, (initial_state r).score = 0) :=
  ⟨fun hr => tick_restart_score s s4 inp r1 r2 h hr.1 hr.2,
    fun hr => tick_score_le s s4 inp r1 r2 h hr,
    fun ticks t t4 h0 hrun => run_score_nonneg ticks t t4 h0 hrun,
    fun _ => rfl⟩

/-! ## Filling the last gap of the bottom row -/

set_option maxRecDepth 100000 in
/-- C18, counterexample: on `board_gap_left` (row 9 occupied except in
column 0, the other rows empty) the upright 4-long piece comes to rest in
column 0 with its lowest cell in the gap.  In the tick in which it locks one
line is cleared and the score goes from 0 to 1, but row 9 does not become
empty: the rows above move down, so row 9 now holds the cell the piece had in
row 8 (and rows 7 and 8 those it had in rows 6 and 7). -/
theorem gap_fill_counterexample :
    (∀ x, x < WIDTH → x ≠ 0 → cell state_gap_drop.map (HEIGHT - 1) x = 1) ∧
    cell state_gap_drop.map (HEIGHT - 1) 0 = 0 ∧
    (∀ y, y < HEIGHT - 1 → ∀ x, x < WIDTH → cell state_gap_drop.map y x = 0) ∧
    tick_check state_gap_drop no_key 0 =
      Step.next ({ state_gap_drop with
        piece_y := 6, move_delay_count := 0, rotated_map := [1, 4, 0, 1, 2, 3] },
        [1, 4, 0, 1, 2, 3], 1) ∧
    piece_cells [1, 4, 0, 1, 2, 3] 0 6 = [60, 70, 80, 90] ∧
    tick state_gap_drop no_key 0 4 =
      Step.next { map := (List.range 100).map (fun j => if j = 70 ∨ j = 80 ∨ j = 90 then 1 else 0)
                  piece_index := 4
                  piece_x := 0
                  piece_y := -2
                  move_delay_count := 0
                  rotation := 1
                  score := 1
                  game_over := 0
                  rotated_map := [1, 4, 0, 1, 2, 3] } ∧
    cell ((List.range 100).map (fun j => if j = 70 ∨ j = 80 ∨ j = 90 then (1 : Int) else 0))
      (HEIGHT - 1) 0 = 1 := by
  decide

/-- C18, amended: for every board whose row `HEIGHT-1` is occupied except
for one cell (column `g`) and whose other rows are empty, and every piece,
inside the board, that a tick locks with one of its cells in that remaining
cell: in that tick exactly one line clear occurs, the score increases by
exactly 1, and the rows above shift down by one: each row `k + 1` receives
what row `k` held after the lock, and row 0 keeps what it held.  Row
`HEIGHT-1` therefore ends up holding exactly the cells the piece had in row
`HEIGHT-2`: it becomes empty if and only if the piece has no cell in row
`HEIGHT-2`. -/
theorem gap_fill_clears_one_line (s : State) (inp : Input) (r1 r2 : Nat) (s2 : State)
    (data : List Int) (c : Int) (g : Nat)
    (hcheck : tick_check s inp r1 = Step.next (s2, data, c)) (hc : c ≠ 0)
    (hlen : s2.map.length = WIDTH * HEIGHT)
    (hrow : ∀ x, x < WIDTH → x ≠ g → cell s2.map (HEIGHT - 1) x ≠ 0)
    (hempty : ∀ y, y < HEIGHT - 1 → ∀ x, x < WIDTH → cell s2.map y x = 0)
    (hidx : ∀ k, k ∈ piece_cells data s2.piece_x s2.piece_y →
      0 ≤ k ∧ k < (WIDTH : Int) * (HEIGHT : Int))
    (hfill : (((HEIGHT - 1) * WIDTH + g : Nat) : Int) ∈
      piece_cells data s2.piece_x s2.piece_y) :
    ∃ m s4, merge_piece s2.map data s2.piece_x s2.piece_y = some m ∧
      (∀ j : Nat, m.getD j 0 =
        if (j : Int) ∈ piece_cells data s2.piece_x s2.piece_y then 1 else s2.map.getD j 0) ∧
      tick s inp r1 r2 = Step.next s4 ∧
      count_full_rows m HEIGHT = 1 ∧ s4.score = s2.score + 1 ∧
      (∀ k x, k < HEIGHT - 1 → x < WIDTH → cell s4.map (k + 1) x = cell m k x) ∧
      (∀ x, x < WIDTH → cell s4.map 0 x = cell m 0 x) ∧
      (∀ x, x < WIDTH → cell s4.map (HEIGHT - 1) x =
        if (((HEIGHT - 2) * WIDTH + x : Nat) : Int) ∈ piece_cells data s2.piece_x s2.piece_y
        then 1 else 0) ∧
      ((∀ x, x < WIDTH → cell s4.map (HEIGHT - 1) x = 0) ↔
        ∀ x, x < WIDTH → (((HEIGHT - 2) * WIDTH + x : Nat) : Int) ∉
          piece_cells data s2.piece_x s2.piece_y) := by
  have hidx2 : ∀ k, k ∈ piece_cells data s2.piece_x s2.piece_y →
      0 ≤ k ∧ k < (s2.map.length : Int) := by
    intro k hk
    rw [hlen]
    push_cast
    exact hidx k hk
  obtain ⟨m, hm, hget, hlock0⟩ := lock_collision s2 data c r2 hc hidx2
  obtain ⟨s3, hlock⟩ : ∃ s3, lock s2 data c r2 = some s3 := ⟨_, hlock0⟩
  have hm3 : s3.map = m := by
    rcases lock_eq_some s2 s3 data c r2 hlock with ⟨h0, -⟩ | ⟨-, m1, hm1, e3⟩
    · exact absurd h0 hc
    · rw [hm] at hm1
      rw [e3, Option.some.inj hm1]
  have hsc3 := lock_score s2 s3 data c r2 hlock
  have hlm : m.length = WIDTH * HEIGHT := by
    rw [(merge_piece_eq_some _ _ _ _ _ hm).1, hlen]
  have hfull : full_row m (HEIGHT - 1) := by
    intro x hx
    unfold cell
    rw [hget]
    by_cases hin : (((HEIGHT - 1) * WIDTH + x : Nat) : Int) ∈
        piece_cells data s2.piece_x s2.piece_y
    · rw [if_pos hin]; decide
    · rw [if_neg hin]
      by_cases hxg : x = g
      · subst hxg
        exact absurd hfill hin
      · exact hrow x hx hxg
  have hothers : ∀ y, y < HEIGHT → y ≠ HEIGHT - 1 → ¬ full_row m y := by
    intro y hy hne
    apply no_full_row_of_few m (piece_cells data s2.piece_x s2.piece_y) y (show 4 < 10 by omega)
    intro x hx hcell
    unfold cell at hcell
    rw [hget] at hcell
    by_contra hnot
    rw [if_neg hnot] at hcell
    apply hcell
    have := hempty y (by simp only [HEIGHT] at hy hne ⊢; omega) x hx
    unfold cell at this
    exact this
  have hpass : handle_complete_lines (m, s2.score) = (clear_line m (HEIGHT - 1), s2.score + 1) := by
    rw [handle_complete_lines_eq]
    exact pass_single_full_row m s2.score hlm (HEIGHT - 1) (by decide) hfull hothers 0
      (by decide)
  have hcount : count_full_rows m HEIGHT = 1 := by
    have h1 := (pass_invariant m s2.score hlm HEIGHT (le_refl _)).2.2
    rw [← handle_complete_lines_eq, hpass] at h1
    have h2 : s2.score + 1 = s2.score + (count_full_rows m HEIGHT : Int) := h1
    omega
  have hspec := (clear_line_spec m (HEIGHT - 1) (by decide) hlm).2
  have key := tick_of_lock s inp r1 r2 s2 s3 data c hcheck hlock
  rw [hm3, hsc3, hpass] at key
  generalize clear_line m (HEIGHT - 1) = m4 at hspec key
  have hshift : ∀ k x, k < HEIGHT - 1 → x < WIDTH → cell m4 (k + 1) x = cell m k x := by
    intro k x hk hx
    unfold cell
    rw [hspec]
    have hcond : WIDTH ≤ (k + 1) * WIDTH + x ∧
        (k + 1) * WIDTH + x < (HEIGHT - 1 + 1) * WIDTH := by
      simp only [WIDTH, HEIGHT] at hk hx ⊢
      omega
    have hi : (k + 1) * WIDTH + x - WIDTH = k * WIDTH + x := by
      simp only [WIDTH]
      omega
    rw [if_pos hcond, hi]
  have hrow0 : ∀ x, x < WIDTH → cell m4 0 x = cell m 0 x := by
    intro x hx
    unfold cell
    rw [hspec]
    have hcond : ¬ (WIDTH ≤ 0 * WIDTH + x ∧ 0 * WIDTH + x < (HEIGHT - 1 + 1) * WIDTH) := by
      simp only [WIDTH] at hx ⊢
      omega
    have hne : ¬ (HEIGHT - 1 = 0 ∧ 0 * WIDTH + x < WIDTH) := fun h => absurd h.1 (by decide)
    rw [if_neg hcond, if_neg hne]
  have hlast : ∀ x, x < WIDTH → cell m4 (HEIGHT - 1) x =
      if (((HEIGHT - 2) * WIDTH + x : Nat) : Int) ∈ piece_cells data s2.piece_x s2.piece_y
      then 1 else 0 := by
    intro x hx
    have h1 := hshift (HEIGHT - 2) x (by decide) hx
    have e : HEIGHT - 2 + 1 = HEIGHT - 1 := by decide
    rw [e] at h1
    rw [h1]
    unfold cell
    rw [hget]
    by_cases hin : (((HEIGHT - 2) * WIDTH + x : Nat) : Int) ∈
        piece_cells data s2.piece_x s2.piece_y
    · rw [if_pos hin, if_pos hin]
    · rw [if_neg hin, if_neg hin]
      have := hempty (HEIGHT - 2) (by decide) x hx
      unfold cell at this
      exact this
  refine ⟨m, _, hm, hget, key, hcount, rfl, hshift, hrow0, hlast, ?_⟩
  constructor
  · intro h x hx hin
    have h1 := h x hx
    have h2 : cell m4 (HEIGHT - 1) x = 0 := h1
    rw [hlast x hx, if_pos hin] at h2
    exact absurd h2 (by decide)
  · intro h x hx
    show cell m4 (HEIGHT - 1) x = 0
    rw [hlast x hx, if_neg (h x hx)]

set_option maxRecDepth 100000 in
theorem gap_fill_clears_one_line_witness :
    tick_check state_gap_drop no_key 0 =
      Step.next ({ state_gap_drop with
        piece_y := 6, move_delay_count := 0, rotated_map := [1, 4, 0, 1, 2, 3] },
        [1, 4, 0, 1, 2, 3], 1) ∧
    (1 : Int) ≠ 0 ∧ board_gap_left.length = WIDTH * HEIGHT ∧
    (∀ x, x < WIDTH → x ≠ 0 → cell board_gap_left (HEIGHT - 1) x ≠ 0) ∧
    (∀ y, y < HEIGHT - 1 → ∀ x, x < WIDTH → cell board_gap_left y x = 0) ∧
    (∀ k, k ∈ piece_cells [1, 4, 0, 1, 2, 3] 0 6 →
      0 ≤ k ∧ k < (WIDTH : Int) * (HEIGHT : Int)) ∧
    (((HEIGHT - 1) * WIDTH + 0 : Nat) : Int) ∈ piece_cells [1, 4, 0, 1, 2, 3] 0 6 ∧
    ∃ m s4, merge_piece board_gap_left [1, 4, 0, 1, 2, 3] 0 6 = some m ∧
      (∀ j : Nat, m.getD j 0 =
        if (j : Int) ∈ piece_cells [1, 4, 0, 1, 2, 3] 0 6 then 1 else board_gap_left.getD j 0) ∧
      tick state_gap_drop no_key 0 4 = Step.next s4 ∧
      count_full_rows m HEIGHT = 1 ∧ s4.score = 0 + 1 ∧
      (∀ k x, k < HEIGHT - 1 → x < WIDTH → cell s4.map (k + 1) x = cell m k x) ∧
      (∀ x, x < WIDTH → cell s4.map 0 x = cell m 0 x) ∧
      (∀ x, x < WIDTH → cell s4.map (HEIGHT - 1) x =
        if (((HEIGHT - 2) * WIDTH + x : Nat) : Int) ∈ piece_cells [1, 4, 0, 1, 2, 3] 0 6
        then 1 else 0) ∧
      ((∀ x, x < WIDTH → cell s4.map (HEIGHT - 1) x = 0) ↔
        ∀ x, x < WIDTH → (((HEIGHT - 2) * WIDTH + x : Nat) : Int) ∉
          piece_cells [1, 4, 0, 1, 2, 3] 0 6) :=
  ⟨by decide, by decide, by decide, by decide, by decide, by decide, by decide,
    gap_fill_clears_one_line state_gap_drop no_key 0 4
      { state_gap_drop with
        piece_y := 6, move_delay_count := 0, rotated_map := [1, 4, 0, 1, 2, 3] }
      [1, 4, 0, 1, 2, 3] 1 0 (by decide) (by decide) (by decide) (by decide) (by decide)
      (by decide) (by decide)⟩

/-! ## The first piece falls to the floor -/

theorem run_append_next (l1 : List (Input × Nat × Nat)) :
    ∀ (s s1 : State) (l2 : List (Input × Nat × Nat)), run s l1 = Step.next s1 →
      run s (l1 ++ l2) = run s1 l2 := by
  induction l1 with
  | nil =>
    intro s s1 l2 h
    rw [run_nil] at h
    rw [List.nil_append, Step.next.inj h]
  | cons t rest ih =>
    intro s s1 l2 h
    obtain ⟨inp, r1, r2⟩ := t
    obtain ⟨s0, h0, hrest⟩ := run_cons_eq_next s s1 inp r1 r2 rest h
    rw [List.cons_append, run_cons_next _ _ _ _ _ _ h0]
    exact ih s0 s1 l2 hrest

theorem tick_check_no_key_rand (s : State) (r : Nat) :
    tick_check s no_key r = tick_check s no_key 0 := by
  unfold tick_check
  simp only [handle_input_no_key]

/-- A tick without key that detects no collision does not depend on the
values of `rand()`. -/
theorem tick_no_key_rand (s s2 : State) (data : List Int) (r1 r2 : Nat)
    (h : tick_check s no_key 0 = Step.next (s2, data, 0)) :
    tick s no_key r1 r2 = tick s no_key 0 0 := by
  rw [tick_of_lock s no_key 0 0 s2 s2 data 0 h (lock_no_collision s2 data 0),
    tick_of_lock s no_key r1 r2 s2 s2 data 0 (by rw [tick_check_no_key_rand]; exact h)
      (lock_no_collision s2 data r2)]

set_option maxRecDepth 100000 in
theorem falling_step : ∀ k, k < 109 →
    tick_check (falling k) no_key 0 = Step.next (falling (k + 1), [4, 1, 0, 1, 2, 3], 0) ∧
    tick (falling k) no_key 0 0 = Step.next (falling (k + 1)) := by
  decide!

theorem falling_run (rs : List (Nat × Nat)) :
    ∀ k, k + rs.length ≤ 109 →
      run (falling k) (rs.map idle) = Step.next (falling (k + rs.length)) := by
  induction rs with
  | nil => intro k _; rfl
  | cons r rest ih =>
    intro k hk
    rw [List.length_cons] at hk
    obtain ⟨hc, ht⟩ := falling_step k (by omega)
    have ht2 : tick (falling k) no_key r.1 r.2 = Step.next (falling (k + 1)) := by
      rw [tick_no_key_rand (falling k) _ _ r.1 r.2 hc]
      exact ht
    show run (falling k) ((no_key, r.1, r.2) :: rest.map idle) = _
    rw [run_cons_next _ _ _ _ _ _ ht2, ih (k + 1) (by omega), List.length_cons]
    congr 2
    omega

set_option maxRecDepth 100000 in
theorem landing_tick_check :
    tick_check (falling 109) no_key 0 = Step.next (falling 110, [4, 1, 0, 1, 2, 3], 1) ∧
    (falling 110).piece_y = 9 ∧
    merge_piece (falling 110).map [4, 1, 0, 1, 2, 3] 0 9 = some board_first_piece ∧
    handle_complete_lines (board_first_piece, 0) = (board_first_piece, 0) ∧
    piece_cells [4, 1, 0, 1, 2, 3] 0 9 = [90, 91, 92, 93] := by
  decide!

/-- The tick in which the first piece reaches the floor, for any values of
`rand()`. -/
theorem landing_tick (r1 r2 : Nat) :
    tick (falling 109) no_key r1 r2 =
      Step.next { map := board_first_piece
                  piece_index := random_number r2 0 6
                  piece_x := 0
                  piece_y := -2
                  move_delay_count := 0
                  rotation := 0
                  score := 0
                  game_over := 0
                  rotated_map := [0, 0, 0, 0, 0, 0] } := by
  obtain ⟨hc, hy, hm, hl, -⟩ := landing_tick_check
  have hlock : lock (falling 110) [4, 1, 0, 1, 2, 3] 1 r2 =
      some { map := board_first_piece
             piece_index := random_number r2 0 6
             piece_x := 0
             piece_y := -2
             move_delay_count := 0
             rotation := 0
             score := 0
             game_over := 0
             rotated_map := [0, 0, 0, 0, 0, 0] } := by
    unfold lock
    rw [if_pos (by decide)]
    have hx : (falling 110).piece_x = 0 := rfl
    rw [hx, hy]
    dsimp only
    rw [hm]
    rfl
  have key := tick_of_lock (falling 109) no_key r1 r2 (falling 110) _ [4, 1, 0, 1, 2, 3] 1
    (by rw [tick_check_no_key_rand]; exact hc) hlock
  dsimp only at key
  rw [hl] at key
  exact key

/-- C17: starting from the initial state with an empty board, shape 0 (the
4-wide piece), rotation 0 and origin `(0, -1)`, for every outcome of the
random draws, ticks with no input run as follows: during the first 109 ticks
no lock happens (the board stays empty, the piece only descends, one row every
11th tick); the 110th tick finds the piece in row 9, detects the collision
with the floor and locks it: `game_over` stays 0, the score stays 0, and
the board then has exactly the 4 cells `x = 0 .. 3` of row `HEIGHT-1`
occupied and every other cell empty. -/
theorem first_piece_lands (rs : List (Nat × Nat)) (r1 r2 : Nat) (hlen : rs.length = 109) :
    (initial_state 0).piece_index = 0 ∧
    (∀ n, n ≤ 109 → run (initial_state 0) ((rs.take n).map idle) = Step.next (falling n)) ∧
    (∀ n, (falling n).map = List.replicate (WIDTH * HEIGHT) 0 ∧ (falling n).piece_index = 0 ∧
      (falling n).piece_x = 0 ∧ (falling n).score = 0 ∧ (falling n).game_over = 0) ∧
    tick_check (falling 109) no_key r1 = Step.next (falling 110, [4, 1, 0, 1, 2, 3], 1) ∧
    piece_cells [4, 1, 0, 1, 2, 3] (falling 110).piece_x (falling 110).piece_y =
      [90, 91, 92, 93] ∧
    run (initial_state 0) (rs.map idle ++ [(no_key, r1, r2)]) =
      Step.next { map := board_first_piece
                  piece_index := random_number r2 0 6
                  piece_x := 0
                  piece_y := -2
                  move_delay_count := 0
                  rotation := 0
                  score := 0
                  game_over := 0
                  rotated_map := [0, 0, 0, 0, 0, 0] } ∧
    (∀ j, j < WIDTH * HEIGHT →
      board_first_piece.getD j 0 = if (HEIGHT - 1) * WIDTH ≤ j ∧ j < (HEIGHT - 1) * WIDTH + 4
        then 1 else 0) := by
  have h0 : initial_state 0 = falling 0 := by decide
  refine ⟨by decide, ?_, ?_, ?_, landing_tick_check.2.2.2.2, ?_, by decide⟩
  · intro n hn
    have := falling_run (rs.take n) 0 (by rw [List.length_take]; omega)
    rw [List.length_take, hlen, Nat.zero_add, Nat.min_eq_left hn] at this
    rw [h0]
    exact this
  · intro n
    have hp : random_number 0 0 6 = 0 := by decide
    exact ⟨rfl, hp, rfl, rfl, rfl⟩
  · rw [tick_check_no_key_rand]
    exact landing_tick_check.1
  · have h1 := falling_run rs 0 (by omega)
    rw [hlen, Nat.zero_add] at h1
    rw [h0, run_append_next _ _ _ _ h1, run_cons_next _ _ _ _ _ _ (landing_tick r1 r2)]
    rfl

set_option maxRecDepth 100000 in
theorem first_piece_lands_witness :
    (List.replicate 109 ((5 : Nat), (6 : Nat))).length = 109 ∧
    run (initial_state 0) ((List.replicate 109 ((5 : Nat), (6 : Nat))).map idle ++
        [(no_key, 3, 8)]) =
      Step.next { map := board_first_piece
                  piece_index := 1
                  piece_x := 0
                  piece_y := -2
                  move_delay_count := 0
                  rotation := 0
                  score := 0
                  game_over := 0
                  rotated_map := [0, 0, 0, 0, 0, 0] } :=
  ⟨by decide, (first_piece_lands (List.replicate 109 (5, 6)) 3 8 (by decide)).2.2.2.2.2.1⟩

/-! ## Board indices outside the board -/

set_option maxRecDepth 100000 in
/-- C20, the code at a failing input.  First run: from the initial state
with first piece `pieces[3]`, nine ticks with arrow-down end in
`state_after_first_lock` (new piece at `origin_y = -2`); in the next tick,
without key, the collision check computes `index_below = -10` for the first
cell and reads `map[-10]`: the tick is undefined.  Second run: from the
initial state with first piece `pieces[0]`, nine ticks with arrow-down and
one without key bring the piece to row 8 with the gravity counter at 10; an
arrow-down then moves it two rows in one tick, to row 10, and the lock writes
`map[100 .. 103]`: the tick is undefined. -/
theorem board_index_out_of_range :
    run (initial_state 3) (List.replicate 9 (key_down, 0, 0)) =
      Step.next state_after_first_lock ∧
    calc_piece_index [4, 1, 0, 1, 2, 3] 0 0 (-2) + (WIDTH : Int) = -10 ∧
    read_map state_after_first_lock.map (-10) = none ∧
    check_collision state_after_first_lock.map [4, 1, 0, 1, 2, 3] 0 (-2) = none ∧
    tick state_after_first_lock no_key 0 0 = Step.undefined ∧
    run (initial_state 3) (List.replicate 9 (key_down, 0, 0) ++ [(no_key, 0, 0)]) =
      Step.undefined ∧
    run (initial_state 0) (List.replicate 9 (key_down, 0, 0) ++ [(no_key, 0, 0)]) =
      Step.next { initial_state 0 with piece_y := 8, move_delay_count := 10 } ∧
    tick_check { initial_state 0 with piece_y := 8, move_delay_count := 10 } key_down 0 =
      Step.next ({ initial_state 0 with piece_y := 10, move_delay_count := 0 },
        [4, 1, 0, 1, 2, 3], 1) ∧
    piece_cells [4, 1, 0, 1, 2, 3] 0 10 = [100, 101, 102, 103] ∧
    merge_piece (initial_state 0).map [4, 1, 0, 1, 2, 3] 0 10 = none ∧
    run (initial_state 0)
        (List.replicate 9 (key_down, 0, 0) ++ [(no_key, 0, 0), (key_down, 0, 0)]) =
      Step.undefined := by
  decide!

/-! ## Instances at concrete states -/

set_option maxRecDepth 100000 in
theorem score_never_decreases_witness :
    tick (set_flag 1 state_gap_drop) key_space 2 0 = Step.next state_restarted ∧
    (set_flag 1 state_gap_drop).game_over ≠ 0 ∧ is_restart key_space ∧
    (((set_flag 1 state_gap_drop).game_over ≠ 0 ∧ is_restart key_space →
        state_restarted.score = 0) ∧
      (¬ ((set_flag 1 state_gap_drop).game_over ≠ 0 ∧ is_restart key_space) →
        (set_flag 1 state_gap_drop).score ≤ state_restarted.score) ∧
      (∀ (ticks : List (Input × Nat × Nat)) (t t4 : State), 0 ≤ t.score →
        run t ticks = Step.next t4 → 0 ≤ t4.score) ∧
      (∀ r, (initial_state r).score = 0)) :=
  ⟨by decide, by decide, by decide,
    score_never_decreases (set_flag 1 state_gap_drop) state_restarted key_space 2 0
      (by decide)⟩

end TTetris
